import Mathlib

set_option maxRecDepth 100000
set_option maxHeartbeats 2000000

/-!
Verification development for the binary record codecs of the repository
(`src/deliveroo-tracker/item_editor.py` — "Codec A", the item table — and
`src/ratelimit.py` — "Codec B", the shop table v1).

Modelling conventions of the shallow embedding:
* a Python `bytes`/`bytearray` value is a `List Nat` (each element intended `< 256`);
* a Python `str` value is the list of its Unicode code points (`List Nat`);
  ISO-8859-1 decode/encode is the identity on code points `< 256`, ASCII
  decode/encode with `errors="ignore"` drops code points `≥ 128`;
* Python `bytearray` slice assignment `b[a:c] = v` is `setSlice b a c v`
  (including Python's resizing behaviour when `v` has a different length);
* Python exceptions escaping a function are modelled with `Option` (`none`),
  and the `except Exception` handler of `load_items` — which shows an alert
  and returns the records parsed so far — is modelled by an error flag
  (`Bool`) returned next to the partial record list.
-/

namespace AppZinho

/-- Python slice `l[a:b]`. -/
def slice (l : List Nat) (a b : Nat) : List Nat := (l.drop a).take (b - a)

/-- Python `bytearray` slice assignment `l[a:b] = v` (resizes when
`v.length ≠ b - a`, exactly as Python does). -/
def setSlice (l : List Nat) (a b : Nat) (v : List Nat) : List Nat :=
  l.take a ++ v ++ l.drop b

/-- `int.from_bytes(bs, byteorder="little")` (source helper `get_int`). -/
def get_int (bs : List Nat) : Nat := bs.foldr (fun b acc => acc * 256 + b) 0

/-- Little-endian byte encoding of `v` on `len` bytes; the in-range guard of
Python's `int.to_bytes` (source helper `to_bytes`) is kept by the callers. -/
def natToLE : Nat → Nat → List Nat
  | 0, _ => []
  | n + 1, v => v % 256 :: natToLE n (v / 256)

/-- Fuelled helper for the decimal-digit list of a natural number. -/
def natDigitsAux : Nat → Nat → List Nat
  | 0, _ => []
  | fuel + 1, n => if n < 10 then [n] else natDigitsAux fuel (n / 10) ++ [n % 10]

/-- Decimal digits of `n`, most significant first: the code-point content of
Python's `str(n)` for a non-negative `n`. -/
def natDigits (n : Nat) : List Nat := natDigitsAux (n + 1) n

/-- Python `int("".join(ds))` for a list of decimal digits (`int` of the
decimal string spelled by `ds`). -/
def fromDigits (ds : List Nat) : Nat := ds.foldl (fun a d => a * 10 + d) 0

/-- `mapM` over `Option`, written recursively so the loops of the encoders
(`save_bin`, `export`) that can raise on some element are easy to reason on. -/
def mapOpt {α β : Type} (f : α → Option β) : List α → Option (List β)
  | [] => some []
  | a :: as =>
      match f a, mapOpt f as with
      | some b, some bs => some (b :: bs)
      | _, _ => none

/-- Concatenation of the encoded blocks, in order. -/
def joinAll : List (List Nat) → List Nat
  | [] => []
  | b :: bs => b ++ joinAll bs

/-! ## Codec A (item table, `item_editor.py`) -/

/-- The 15-entry statistics block of an item (`parse_stats` offsets). -/
structure ItemStats where
  hpp : Nat
  attmin : Nat
  attmax : Nat
  atttransmin : Nat
  atttransmax : Nat
  transgauge : Nat
  crit : Nat
  evade : Nat
  spectrans : Nat
  speed : Nat
  transbotdef : Nat
  transbotatt : Nat
  transspeed : Nat
  rangeatt : Nat
  luk : Nat
deriving DecidableEq

/-- An item record: the dictionary built by `load_items`, with the three
derived fields `bot`/`part`/`buyable`. -/
structure ItemRecord where
  id : Nat
  name : List Nat
  level : Nat
  buy : Nat
  coins : Nat
  sell : Nat
  days : Nat
  stats : ItemStats
  bot : Nat
  part : Nat
  buyable : Nat
deriving DecidableEq

/-- `parse_stats(block)`: the 15 stat fields at offsets 58..118. -/
def parse_stats (block : List Nat) : ItemStats :=
  { hpp := get_int (slice block 58 62)
    attmin := get_int (slice block 62 66)
    attmax := get_int (slice block 66 70)
    atttransmin := get_int (slice block 70 74)
    atttransmax := get_int (slice block 74 78)
    transgauge := get_int (slice block 78 82)
    crit := get_int (slice block 82 86)
    evade := get_int (slice block 86 90)
    spectrans := get_int (slice block 90 94)
    speed := get_int (slice block 94 98)
    transbotdef := get_int (slice block 98 102)
    transbotatt := get_int (slice block 102 106)
    transspeed := get_int (slice block 106 110)
    rangeatt := get_int (slice block 110 114)
    luk := get_int (slice block 114 118) }

/-- `removenullbyte`: `value.split(b"\x00")[0]` decoded with ISO-8859-1
(the identity on code points below 256). -/
def removenullbyte (bs : List Nat) : List Nat := bs.takeWhile (fun b => b != 0)

/-- The derived `bot`/`part`/`buyable` triple computed by `load_items` from
`s_id = str(item["id"])`; `none` models the `IndexError` raised by
`int(s_id[2])` or `s_id[6]` when the identifier is too short. -/
def deriveBPB (id : Nat) : Option (Nat × Nat × Nat) :=
  let s := natDigits id
  if s.take 2 = [1, 1] then
    match s[2]?, s[6]? with
    | some p, some d => some (1, p, if d = 0 then 1 else 0)
    | _, _ => none
  else if s.take 2 = [1, 2] then
    match s[2]?, s[6]? with
    | some p, some d => some (2, p, if d = 0 then 1 else 0)
    | _, _ => none
  else if s.take 2 = [1, 3] then
    match s[2]?, s[6]? with
    | some p, some d => some (3, p, if d = 0 then 1 else 0)
    | _, _ => none
  else
    some (0, 0, 0)

/-- One iteration body of the `load_items` loop: the record dictionary built
from a 236-byte block, `none` when the derived-field computation raises. -/
def parseBlock (block : List Nat) : Option ItemRecord :=
  let id := get_int (slice block 0 4)
  match deriveBPB id with
  | none => none
  | some (b, p, u) =>
      some { id := id
             name := removenullbyte (slice block 4 35)
             level := block.getD 35 0
             buy := get_int (slice block 37 41)
             coins := get_int (slice block 41 45)
             sell := get_int (slice block 45 49)
             days := get_int (slice block 56 58)
             stats := parse_stats block
             bot := b
             part := p
             buyable := u }

/-- The `while True` loop of `load_items`, reading `n` full 236-byte blocks;
on an exception the records parsed so far are returned with the error flag
set (the Python handler shows an alert and returns the partial list). -/
def loadLoop : Nat → List Nat → List ItemRecord × Bool
  | 0, _ => ([], false)
  | n + 1, bs =>
      match parseBlock (bs.take 236) with
      | none => ([], true)
      | some it =>
          let r := loadLoop n (bs.drop 236)
          (it :: r.1, r.2)

/-- `load_items` on the file content `bs`: skip the 4 header bytes, then read
full 236-byte blocks while at least 236 bytes remain. -/
def loadItems (bs : List Nat) : List ItemRecord × Bool :=
  loadLoop ((bs.length - 4) / 236) (bs.drop 4)

/-- `pad_string`: ISO-8859-1 encode and null-pad to 31 bytes (no padding is
added when the encoding is longer, as in the source where `b"\x00" * k` is
empty for negative `k`). -/
def pad_string (s : List Nat) : List Nat := s ++ List.replicate (31 - s.length) 0

/-- The in-range conditions under which no write of the `save_bin` block loop
raises (`to_bytes` overflow, ISO-8859-1 encode failure, `block[35] = level`
range check). -/
def okA (r : ItemRecord) : Bool :=
  decide (r.id < 2 ^ 32) && r.name.all (fun c => decide (c < 256)) &&
  decide (r.level < 256) && decide (r.buy < 2 ^ 32) && decide (r.coins < 2 ^ 32) &&
  decide (r.sell < 2 ^ 32) && decide (r.days < 2 ^ 16) &&
  decide (r.stats.hpp < 2 ^ 32) && decide (r.stats.attmin < 2 ^ 32) &&
  decide (r.stats.attmax < 2 ^ 32) && decide (r.stats.atttransmin < 2 ^ 32) &&
  decide (r.stats.atttransmax < 2 ^ 32) && decide (r.stats.transgauge < 2 ^ 32) &&
  decide (r.stats.crit < 2 ^ 32) && decide (r.stats.evade < 2 ^ 32) &&
  decide (r.stats.spectrans < 2 ^ 32) && decide (r.stats.speed < 2 ^ 32) &&
  decide (r.stats.transbotdef < 2 ^ 32) && decide (r.stats.transbotatt < 2 ^ 32) &&
  decide (r.stats.transspeed < 2 ^ 32) && decide (r.stats.rangeatt < 2 ^ 32) &&
  decide (r.stats.luk < 2 ^ 32)

/-- The 236-byte block written for one item by `save_bin`: slice assignments
at the documented offsets into a zeroed `bytearray(MEMSIZE)`. -/
def buildBlock (r : ItemRecord) : List Nat :=
  let b0 := List.replicate 236 0
  let b1 := setSlice b0 0 4 (natToLE 4 r.id)
  let b2 := setSlice b1 4 35 (pad_string r.name)
  let b3 := b2.set 35 r.level
  let b4 := setSlice b3 37 41 (natToLE 4 r.buy)
  let b5 := setSlice b4 41 45 (natToLE 4 r.coins)
  let b6 := setSlice b5 45 49 (natToLE 4 r.sell)
  let b7 := setSlice b6 56 58 (natToLE 2 r.days)
  let b8 := setSlice b7 58 62 (natToLE 4 r.stats.hpp)
  let b9 := setSlice b8 62 66 (natToLE 4 r.stats.attmin)
  let b10 := setSlice b9 66 70 (natToLE 4 r.stats.attmax)
  let b11 := setSlice b10 70 74 (natToLE 4 r.stats.atttransmin)
  let b12 := setSlice b11 74 78 (natToLE 4 r.stats.atttransmax)
  let b13 := setSlice b12 78 82 (natToLE 4 r.stats.transgauge)
  let b14 := setSlice b13 82 86 (natToLE 4 r.stats.crit)
  let b15 := setSlice b14 86 90 (natToLE 4 r.stats.evade)
  let b16 := setSlice b15 90 94 (natToLE 4 r.stats.spectrans)
  let b17 := setSlice b16 94 98 (natToLE 4 r.stats.speed)
  let b18 := setSlice b17 98 102 (natToLE 4 r.stats.transbotdef)
  let b19 := setSlice b18 102 106 (natToLE 4 r.stats.transbotatt)
  let b20 := setSlice b19 106 110 (natToLE 4 r.stats.transspeed)
  let b21 := setSlice b20 110 114 (natToLE 4 r.stats.rangeatt)
  let b22 := setSlice b21 114 118 (natToLE 4 r.stats.luk)
  b22

/-- Encoding of one record in the `save_bin` loop (`none` models a raised
exception on an out-of-range field value). -/
def encodeBlock (r : ItemRecord) : Option (List Nat) :=
  if okA r then some (buildBlock r) else none

/-- `save_bin`: the 4-byte zero header followed by each record's block. The
Python loop writes straight to the file, so a raise partway through leaves a
truncated file; the model collapses every raising run to `none`, which is
equivalent for records produced by decode (no write raises on them). -/
def saveBin (items : List ItemRecord) : Option (List Nat) :=
  match mapOpt encodeBlock items with
  | none => none
  | some blocks => some ([0, 0, 0, 0] ++ joinAll blocks)

/-- `_sync_buyable_digit`: rewrite digit index 6 of the decimal identifier
from the `buyable` field, only when the identifier has at least 7 digits and
`bot ∈ {1,2,3}`. -/
def syncBuyableDigit (r : ItemRecord) : ItemRecord :=
  let s := natDigits r.id
  if s.length < 7 then r
  else if r.bot = 1 ∨ r.bot = 2 ∨ r.bot = 3 then
    { r with id := fromDigits (s.set 6 (if r.buyable = 0 then 1 else 0)) }
  else r

/-! ## Codec B (shop table v1, `ratelimit.py`) -/

/-- A shop record: the dictionary built by `parse_item`, retaining the raw
108-byte block. -/
structure ShopItem where
  offset : Nat
  id : Nat
  name : List Nat
  category : Nat
  buyable : Nat
  block : List Nat
deriving DecidableEq

/-- `parse_item(data, offset)`: name at 0x00 (null-terminated within 32
bytes, ASCII decode dropping bytes ≥ 128), buyable byte at 0x50, category at
0x54, identifier at 0x5C, plus the raw block. -/
def parse_item (data : List Nat) (offset : Nat) : ShopItem :=
  let block := slice data offset (offset + 108)
  { offset := offset
    id := get_int (slice block 92 96)
    name := ((slice block 0 32).takeWhile (fun b => b != 0)).filter
      (fun b => decide (b < 128))
    category := get_int (slice block 84 88)
    buyable := block.getD 80 0
    block := block }

/-- The name bytes written by `rebuild_item`: ASCII encode with
`errors="ignore"` (drop code points ≥ 128), truncate to 31 bytes,
null-terminate. -/
def nameBytesB (name : List Nat) : List Nat :=
  (name.filter (fun b => decide (b < 128))).take 31 ++ [0]

/-- `rebuild_item(item)`: the retained raw block with the 4 named regions
overwritten (name re-encoded to ASCII dropping code points ≥ 128, truncated
to 31 bytes and null-terminated over a zeroed 32-byte field; category and
identifier packed `<I`; buyable masked to its low byte). `none` models the
`struct.error` of `struct.pack("<I", v)` for `v ≥ 2^32`. -/
def rebuild_item (it : ShopItem) : Option (List Nat) :=
  if it.id < 2 ^ 32 ∧ it.category < 2 ^ 32 then
    let nameB := nameBytesB it.name
    let b1 := setSlice it.block 0 32 (List.replicate 32 0)
    let b2 := setSlice b1 0 nameB.length nameB
    let b3 := setSlice b2 84 88 (natToLE 4 it.category)
    let b4 := b3.set 80 (it.buyable % 256)
    let b5 := setSlice b4 92 96 (natToLE 4 it.id)
    some b5
  else none

/-- `ShopEditor.load_file` on the file content: `none` is the `ValueError`
raised when the input is shorter than the 48-byte header; otherwise the
header is retained and full 108-byte blocks are parsed (the loop
`for offset in range(48, len, 108)` breaks at a short trailing block, so
exactly `(len - 48) / 108` records are read, in file order). -/
def shopLoad (data : List Nat) : Option (List Nat × List ShopItem) :=
  if data.length < 48 then none
  else
    some (data.take 48,
      (List.range ((data.length - 48) / 108)).map (fun i => parse_item data (48 + 108 * i)))

/-- `ShopEditor.export`: header followed by each rebuilt record block. -/
def shopExport (header : List Nat) (items : List ShopItem) : Option (List Nat) :=
  match mapOpt rebuild_item items with
  | none => none
  | some blocks => some (header ++ joinAll blocks)

/-- The template clone made by `ShopEditor.add_item` from the last record:
identifier incremented, name reset to `"NewItem"` (as code points), category
0, buyable 1, raw block copied. -/
def mkNewItem (last : ShopItem) : ShopItem :=
  { last with id := last.id + 1
              name := [78, 101, 119, 73, 116, 101, 109]
              category := 0
              buyable := 1 }

/-- `ShopEditor.add_item`: clones `items[-1]` as a template and appends;
`none` models the `IndexError` of `self.items[-1]` on an empty table. -/
def addItem (items : List ShopItem) : Option (List ShopItem) :=
  match items.getLast? with
  | none => none
  | some last => some (items ++ [mkNewItem last])

/-- Application of one planned slice assignment. -/
def applyWrite (l : List Nat) (w : Nat × Nat × List Nat) : List Nat :=
  setSlice l w.1 w.2.1 w.2.2

/-- The byte content produced by a write plan from position `p` to `q`:
zero gap fill, the written value, and so on. -/
def fillGaps : List (Nat × Nat × List Nat) → Nat → Nat → List Nat
  | [], p, q => List.replicate (q - p) 0
  | (a, b, v) :: ws, p, q => List.replicate (a - p) 0 ++ v ++ fillGaps ws b q

/-- Well-formedness of a write plan: ascending, exact-fit, within `q`. -/
def wfWrites : List (Nat × Nat × List Nat) → Nat → Nat → Prop
  | [], p, q => p ≤ q
  | (a, b, v) :: ws, p, q => p ≤ a ∧ b = a + v.length ∧ b ≤ q ∧ wfWrites ws b q

/-- The write plan performed by the `save_bin` block loop. -/
def planA (r : ItemRecord) : List (Nat × Nat × List Nat) :=
  [(0, 4, natToLE 4 r.id), (4, 35, pad_string r.name), (35, 36, [r.level]),
   (37, 41, natToLE 4 r.buy), (41, 45, natToLE 4 r.coins), (45, 49, natToLE 4 r.sell),
   (56, 58, natToLE 2 r.days),
   (58, 62, natToLE 4 r.stats.hpp), (62, 66, natToLE 4 r.stats.attmin),
   (66, 70, natToLE 4 r.stats.attmax), (70, 74, natToLE 4 r.stats.atttransmin),
   (74, 78, natToLE 4 r.stats.atttransmax), (78, 82, natToLE 4 r.stats.transgauge),
   (82, 86, natToLE 4 r.stats.crit), (86, 90, natToLE 4 r.stats.evade),
   (90, 94, natToLE 4 r.stats.spectrans), (94, 98, natToLE 4 r.stats.speed),
   (98, 102, natToLE 4 r.stats.transbotdef), (102, 106, natToLE 4 r.stats.transbotatt),
   (106, 110, natToLE 4 r.stats.transspeed), (110, 114, natToLE 4 r.stats.rangeatt),
   (114, 118, natToLE 4 r.stats.luk)]

/-- The closed concatenation form of an encoded 236-byte item block. -/
def blockShape (r : ItemRecord) : List Nat :=
  natToLE 4 r.id ++ pad_string r.name ++ [r.level] ++ [0] ++ natToLE 4 r.buy ++
  natToLE 4 r.coins ++ natToLE 4 r.sell ++ List.replicate 7 0 ++ natToLE 2 r.days ++
  natToLE 4 r.stats.hpp ++ natToLE 4 r.stats.attmin ++ natToLE 4 r.stats.attmax ++
  natToLE 4 r.stats.atttransmin ++ natToLE 4 r.stats.atttransmax ++
  natToLE 4 r.stats.transgauge ++ natToLE 4 r.stats.crit ++ natToLE 4 r.stats.evade ++
  natToLE 4 r.stats.spectrans ++ natToLE 4 r.stats.speed ++
  natToLE 4 r.stats.transbotdef ++ natToLE 4 r.stats.transbotatt ++
  natToLE 4 r.stats.transspeed ++ natToLE 4 r.stats.rangeatt ++
  natToLE 4 r.stats.luk ++ List.replicate 118 0

/-- Range conditions on the numeric fields written by the `save_bin` loop. -/
def inRange (r : ItemRecord) : Prop :=
  r.id < 2 ^ 32 ∧ r.level < 256 ∧ r.buy < 2 ^ 32 ∧ r.coins < 2 ^ 32 ∧
  r.sell < 2 ^ 32 ∧ r.days < 2 ^ 16 ∧ r.stats.hpp < 2 ^ 32 ∧
  r.stats.attmin < 2 ^ 32 ∧ r.stats.attmax < 2 ^ 32 ∧ r.stats.atttransmin < 2 ^ 32 ∧
  r.stats.atttransmax < 2 ^ 32 ∧ r.stats.transgauge < 2 ^ 32 ∧ r.stats.crit < 2 ^ 32 ∧
  r.stats.evade < 2 ^ 32 ∧ r.stats.spectrans < 2 ^ 32 ∧ r.stats.speed < 2 ^ 32 ∧
  r.stats.transbotdef < 2 ^ 32 ∧ r.stats.transbotatt < 2 ^ 32 ∧
  r.stats.transspeed < 2 ^ 32 ∧ r.stats.rangeatt < 2 ^ 32 ∧ r.stats.luk < 2 ^ 32

/-- A 32-byte name region that is a null-padded non-empty-capacity ASCII
string: some `nb` of at most 31 bytes, each nonzero and below 128, followed
by zero padding. -/
def goodName (block : List Nat) : Prop :=
  ∃ nb : List Nat, nb.length ≤ 31 ∧ (∀ b ∈ nb, b ≠ 0 ∧ b < 128) ∧
    slice block 0 32 = nb ++ List.replicate (32 - nb.length) 0

/-! ## Concrete inputs used by witnesses and counterexamples -/

/-- A 236-byte item block whose identifier 1371230560 has digits
`1,3,7,1,2,3,0,5,6,0`. -/
def c1Block : List Nat := natToLE 4 1371230560 ++ List.replicate 232 0

/-- The record decoded from `c1Block`. -/
def c1Rec : ItemRecord :=
  { id := 1371230560, name := [], level := 0, buy := 0, coins := 0, sell := 0, days := 0
    stats := ⟨0, 0, 0, 0, 0, 0, 0, 0, 0, 0, 0, 0, 0, 0, 0⟩, bot := 3, part := 7, buyable := 1 }

/-- A bot record with a 7-digit identifier, for the sync contract. -/
def c2Rec : ItemRecord :=
  { id := 1234567, name := [66], level := 3, buy := 10, coins := 0, sell := 5, days := 0
    stats := ⟨0, 0, 0, 0, 0, 0, 0, 0, 0, 0, 0, 0, 0, 0, 0⟩, bot := 1, part := 2, buyable := 1 }

/-- An item-table file: zero header and one block with identifier 1112223334
and a 31-byte non-null name region. -/
def c3Input : List Nat :=
  List.replicate 4 0 ++ (natToLE 4 1112223334 ++ (72 :: 105 :: List.replicate 230 7))

/-- A shop record with an arbitrary retained block. -/
def c4Item : ShopItem :=
  { offset := 0, id := 5, name := [65, 66], category := 65536, buyable := 113
    block := List.range 108 }

/-- Codec B input from the claimed scenario shape whose first block has a
stray byte after the name terminator. -/
def c5BadInput : List Nat :=
  List.replicate 48 0 ++ ((65 :: 0 :: 66 :: List.replicate 105 0) ++ List.replicate 108 0)

/-- First Codec B block of the amended scenario: name `AB`, zero padding. -/
def c5BlockA : List Nat := 65 :: 66 :: List.replicate 106 0

/-- Second Codec B block of the amended scenario: all zero. -/
def c5BlockB : List Nat := List.replicate 108 0

/-- The item-table file of the amended C6 scenario: the claimed identifier
1101234560 with digits at indices 2 and 6 corrected, giving 1111230560
(digits `1,1,1,1,2,3,0,5,6,0`: starts with `11`, third digit 1, digit
index 6 is 0). -/
def c6Input : List Nat := List.replicate 4 0 ++ (natToLE 4 1111230560 ++ List.replicate 232 0)

/-- The record decoded from `c6Input`. -/
def c6Rec : ItemRecord :=
  { id := 1111230560, name := [], level := 0, buy := 0, coins := 0, sell := 0, days := 0
    stats := ⟨0, 0, 0, 0, 0, 0, 0, 0, 0, 0, 0, 0, 0, 0, 0⟩, bot := 1, part := 1, buyable := 1 }

/-- The item-table file of the claimed C6 scenario, identifier 1101234560. -/
def c6BadInput : List Nat := List.replicate 4 0 ++ (natToLE 4 1101234560 ++ List.replicate 232 0)

/-- The `i`-th full 236-byte block of an item-table file. -/
def blockAt (bs : List Nat) (i : Nat) : List Nat :=
  slice (bs.drop 4) (236 * i) (236 * i + 236)

/-- A 240-byte item-table file whose single block has identifier 11: the
derived-field computation raises and the record is dropped. -/
def c7BadInput : List Nat := List.replicate 4 0 ++ (11 :: List.replicate 235 0)

/-- An item-table file of length `4 + 236*3 + 100`: three zero blocks and a
100-byte trailing fragment. -/
def c7GoodInput : List Nat := List.replicate 712 0 ++ List.replicate 100 7

/-- A shop record used as the non-empty-table template. -/
def c10Item : ShopItem :=
  { offset := 48, id := 9, name := [65], category := 65536, buyable := 113
    block := List.replicate 108 1 }

/-! ## Decimal digit lemmas -/

theorem natDigitsAux_irrel (f1 : Nat) : ∀ (n f2 : Nat), n < f1 → n < f2 →
    natDigitsAux f1 n = natDigitsAux f2 n := by
  induction f1 with
  | zero => intro n f2 h1 _; exact absurd h1 (Nat.not_lt_zero n)
  | succ g ih =>
    intro n f2 h1 h2
    cases f2 with
    | zero => exact absurd h2 (Nat.not_lt_zero n)
    | succ g2 =>
      simp only [natDigitsAux]
      by_cases h : n < 10
      · simp [h]
      · rw [if_neg h, if_neg h]
        have hn : 0 < n := by omega
        have hd : n / 10 < n := Nat.div_lt_self hn (by omega)
        rw [ih (n / 10) g2 (by omega) (by omega)]

theorem natDigits_eq (n : Nat) :
    natDigits n = if n < 10 then [n] else natDigits (n / 10) ++ [n % 10] := by
  show natDigitsAux (n + 1) n = _
  simp only [natDigitsAux]
  by_cases h : n < 10
  · simp [h]
  · rw [if_neg h, if_neg h]
    have hn : 0 < n := by omega
    have hd : n / 10 < n := Nat.div_lt_self hn (by omega)
    rw [natDigitsAux_irrel n (n / 10) (n / 10 + 1) (by omega) (by omega)]
    rfl

theorem natDigits_ne_nil (n : Nat) : natDigits n ≠ [] := by
  rw [natDigits_eq]
  by_cases h : n < 10 <;> simp [h]

theorem natDigits_digit_lt (n : Nat) : ∀ d ∈ natDigits n, d < 10 := by
  induction n using Nat.strong_induction_on with
  | _ n ih =>
    rw [natDigits_eq]
    by_cases h : n < 10
    · simp [h]
    · rw [if_neg h]
      intro d hd
      rcases List.mem_append.1 hd with h1 | h1
      · exact ih (n / 10) (Nat.div_lt_self (by omega) (by omega)) d h1
      · simp at h1
        subst h1
        exact Nat.mod_lt n (by omega)

theorem headD_append {α : Type} (xs ys : List α) (d : α) (h : xs ≠ []) :
    (xs ++ ys).headD d = xs.headD d := by
  cases xs with
  | nil => exact absurd rfl h
  | cons a t => rfl

theorem natDigits_headD_ne_zero (n : Nat) (hn : 0 < n) : (natDigits n).headD 0 ≠ 0 := by
  induction n using Nat.strong_induction_on with
  | _ n ih =>
    rw [natDigits_eq]
    by_cases h : n < 10
    · simpa [h] using by omega
    · rw [if_neg h, headD_append _ _ _ (natDigits_ne_nil _)]
      exact ih (n / 10) (Nat.div_lt_self hn (by omega)) (by omega)

theorem natDigits_concat (a d : Nat) (hd : d < 10) (ha : 0 < a) :
    natDigits (a * 10 + d) = natDigits a ++ [d] := by
  rw [natDigits_eq (a * 10 + d), if_neg (by omega)]
  have h1 : (a * 10 + d) / 10 = a := by
    rw [Nat.mul_comm a 10, Nat.mul_add_div (by omega)]
    omega
  have h2 : (a * 10 + d) % 10 = d := by
    rw [Nat.mul_comm a 10, Nat.mul_add_mod]
    omega
  rw [h1, h2]

theorem fromDigits_cons (h : Nat) (t : List Nat) :
    fromDigits (h :: t) = t.foldl (fun a d => a * 10 + d) h := by
  simp [fromDigits]

theorem fromDigits_concat (ds : List Nat) (d : Nat) :
    fromDigits (ds ++ [d]) = fromDigits ds * 10 + d := by
  simp [fromDigits]

theorem fromDigits_natDigits (n : Nat) : fromDigits (natDigits n) = n := by
  induction n using Nat.strong_induction_on with
  | _ n ih =>
    rw [natDigits_eq]
    by_cases h : n < 10
    · simp [h, fromDigits]
    · rw [if_neg h, fromDigits_concat, ih (n / 10) (Nat.div_lt_self (by omega) (by omega))]
      omega

theorem foldl_digits_ge (t : List Nat) : ∀ a : Nat, a ≤ t.foldl (fun x d => x * 10 + d) a := by
  induction t with
  | nil => intro a; simp
  | cons d t ih =>
    intro a
    simp only [List.foldl]
    have h1 : a ≤ a * 10 + d := by omega
    exact Nat.le_trans h1 (ih (a * 10 + d))

theorem fromDigits_pos (ds : List Nat) (h : ds ≠ []) (h0 : ds.headD 0 ≠ 0) :
    0 < fromDigits ds := by
  cases ds with
  | nil => exact absurd rfl h
  | cons a t =>
    rw [fromDigits_cons]
    have := foldl_digits_ge t a
    simp only [List.headD] at h0
    omega

theorem natDigits_fromDigits (ds : List Nat) (h : ds ≠ [])
    (hlt : ∀ d ∈ ds, d < 10) (h0 : ds.headD 0 ≠ 0) :
    natDigits (fromDigits ds) = ds := by
  induction ds using List.reverseRecOn with
  | nil => exact absurd rfl h
  | append_singleton ds d ih =>
    have hd : d < 10 := hlt d (by simp)
    cases ds with
    | nil =>
      have : fromDigits [d] = d := by simp [fromDigits]
      rw [List.nil_append, this, natDigits_eq, if_pos hd]
    | cons a t =>
      rw [fromDigits_concat]
      have hne : (a :: t) ≠ [] := by simp
      have h0a : (a :: t).headD 0 ≠ 0 := by
        rw [headD_append _ _ _ hne] at h0
        exact h0
      have hpos : 0 < fromDigits (a :: t) := fromDigits_pos _ hne h0a
      rw [natDigits_concat _ _ hd hpos,
        ih (by simp) (fun x hx => hlt x (List.mem_append_left _ hx)) h0a]

/-! ## Little-endian byte lemmas -/

theorem natToLE_length (k v : Nat) : (natToLE k v).length = k := by
  induction k generalizing v with
  | zero => rfl
  | succ n ih => simp [natToLE, ih]

theorem get_int_nil : get_int [] = 0 := rfl

theorem get_int_cons (b : Nat) (bs : List Nat) :
    get_int (b :: bs) = get_int bs * 256 + b := rfl

theorem get_int_natToLE (k v : Nat) (h : v < 256 ^ k) : get_int (natToLE k v) = v := by
  induction k generalizing v with
  | zero =>
    simp [natToLE, get_int_nil]
    omega
  | succ n ih =>
    rw [natToLE, get_int_cons, ih (v / 256) (by
      have : 256 ^ (n + 1) = 256 ^ n * 256 := by ring
      rw [this] at h
      exact Nat.div_lt_of_lt_mul (by omega))]
    omega

theorem natToLE_get_int (bs : List Nat) (h : ∀ b ∈ bs, b < 256) :
    natToLE bs.length (get_int bs) = bs := by
  induction bs with
  | nil => rfl
  | cons b bs ih =>
    rw [List.length_cons, natToLE, get_int_cons]
    have hb : b < 256 := h b (by simp)
    have h1 : (get_int bs * 256 + b) % 256 = b := by
      rw [Nat.mul_comm, Nat.mul_add_mod]
      omega
    have h2 : (get_int bs * 256 + b) / 256 = get_int bs := by
      rw [Nat.mul_comm, Nat.mul_add_div (by omega)]
      omega
    rw [h1, h2, ih (fun x hx => h x (by simp [hx]))]

theorem get_int_lt (bs : List Nat) (h : ∀ b ∈ bs, b < 256) :
    get_int bs < 256 ^ bs.length := by
  induction bs with
  | nil => simp [get_int_nil]
  | cons b bs ih =>
    rw [get_int_cons, List.length_cons]
    have hb : b < 256 := h b (by simp)
    have h1 : get_int bs < 256 ^ bs.length := ih (fun x hx => h x (by simp [hx]))
    have : 256 ^ (bs.length + 1) = 256 ^ bs.length * 256 := by ring
    rw [this]
    nlinarith

theorem natToLE_bytes_lt (k v : Nat) : ∀ b ∈ natToLE k v, b < 256 := by
  induction k generalizing v with
  | zero => simp [natToLE]
  | succ n ih =>
    intro b hb
    rw [natToLE] at hb
    rcases List.mem_cons.1 hb with h1 | h1
    · subst h1; exact Nat.mod_lt _ (by omega)
    · exact ih (v / 256) b h1

/-! ## Slice and slice-assignment lemmas -/

theorem slice_length (l : List Nat) (a b : Nat) :
    (slice l a b).length = min (b - a) (l.length - a) := by
  simp [slice]

theorem slice_getElem? (l : List Nat) (a b j : Nat) (h : j < b - a) :
    (slice l a b)[j]? = l[a + j]? := by
  rw [slice, List.getElem?_take, if_pos h, List.getElem?_drop]

theorem slice_drop (l : List Nat) (k a b : Nat) :
    slice (l.drop k) a b = slice l (k + a) (k + b) := by
  simp [slice, List.drop_drop, Nat.add_comm a k]
  congr 1
  omega

theorem slice_append_right (xs rest : List Nat) (a b : Nat) (h : xs.length ≤ a) :
    slice (xs ++ rest) a b = slice rest (a - xs.length) (b - xs.length) := by
  rw [slice, slice, List.drop_append_eq_append_drop,
    List.drop_eq_nil_of_le h, List.nil_append]
  congr 1
  omega

theorem slice_here (xs rest : List Nat) (b : Nat) (h : xs.length = b) :
    slice (xs ++ rest) 0 b = xs := by
  rw [slice, List.drop_zero, Nat.sub_zero, List.take_append_eq_append_take,
    ← h, List.take_length, Nat.sub_self, List.take_zero, List.append_nil]

theorem setSlice_length (l v : List Nat) (a b : Nat) (hv : v.length = b - a)
    (hab : a ≤ b) (hb : b ≤ l.length) : (setSlice l a b v).length = l.length := by
  simp [setSlice]
  omega

theorem setSlice_getElem?_lt (l v : List Nat) (a b i : Nat) (ha : a ≤ l.length)
    (hi : i < a) : (setSlice l a b v)[i]? = l[i]? := by
  have hlen : (l.take a).length = a := by simp; omega
  rw [setSlice, List.append_assoc, List.getElem?_append, hlen, if_pos hi,
    List.getElem?_take, if_pos hi]

theorem setSlice_getElem?_ge (l v : List Nat) (a b i : Nat) (hv : v.length = b - a)
    (hab : a ≤ b) (ha : a ≤ l.length) (hi : b ≤ i) :
    (setSlice l a b v)[i]? = l[i]? := by
  have hlen : (l.take a).length = a := by simp; omega
  rw [setSlice, List.append_assoc, List.getElem?_append, hlen, if_neg (by omega),
    List.getElem?_append_right (by omega), hv, List.getElem?_drop]
  congr 1
  omega

theorem setSlice_getElem?_mid (l v : List Nat) (a b j : Nat) (ha : a ≤ l.length)
    (hj : j < v.length) : (setSlice l a b v)[a + j]? = v[j]? := by
  have hlen : (l.take a).length = a := by simp; omega
  rw [setSlice, List.append_assoc, List.getElem?_append, hlen, if_neg (by omega),
    Nat.add_sub_cancel_left, List.getElem?_append, if_pos hj]

/-! ## takeWhile lemmas -/

theorem takeWhile_append_all {α : Type} (p : α → Bool) (xs ys : List α)
    (h : ∀ x ∈ xs, p x = true) :
    (xs ++ ys).takeWhile p = xs ++ ys.takeWhile p := by
  induction xs with
  | nil => simp
  | cons a t ih =>
    rw [List.cons_append, List.takeWhile_cons, h a (by simp), if_pos rfl,
      ih (fun x hx => h x (by simp [hx])), List.cons_append]

theorem takeWhile_replicate_zero (k : Nat) :
    (List.replicate k 0).takeWhile (fun b => b != 0) = [] := by
  cases k with
  | zero => rfl
  | succ n => rw [List.replicate_succ, List.takeWhile_cons]; rfl

theorem takeWhile_length_le {α : Type} (p : α → Bool) (l : List α) :
    (l.takeWhile p).length ≤ l.length := by
  induction l with
  | nil => simp
  | cons a t ih =>
    rw [List.takeWhile_cons]
    by_cases h : p a = true
    · simp [h]; omega
    · simp [h]

/-! ## Buyable-digit synchronisation lemmas -/

theorem headD_set {α : Type} (l : List α) (i : Nat) (v d : α) (h : i ≠ 0) :
    (l.set i v).headD d = l.headD d := by
  cases l with
  | nil => rfl
  | cons a t =>
    cases i with
    | zero => exact absurd rfl h
    | succ j => rfl

theorem natDigits_zero : natDigits 0 = [0] := rfl

theorem id_pos_of_seven_digits (n : Nat) (h : 7 ≤ (natDigits n).length) : 0 < n := by
  rcases Nat.eq_zero_or_pos n with h0 | h0
  · subst h0
    rw [natDigits_zero] at h
    simp at h
  · exact h0

theorem sync_branch (r : ItemRecord) (h7 : 7 ≤ (natDigits r.id).length)
    (hbot : r.bot = 1 ∨ r.bot = 2 ∨ r.bot = 3) :
    syncBuyableDigit r =
      { r with id := fromDigits ((natDigits r.id).set 6 (if r.buyable = 0 then 1 else 0)) } := by
  simp only [syncBuyableDigit]
  rw [if_neg (by omega), if_pos hbot]

theorem sync_noop (r : ItemRecord)
    (h : (natDigits r.id).length < 7 ∨ ¬(r.bot = 1 ∨ r.bot = 2 ∨ r.bot = 3)) :
    syncBuyableDigit r = r := by
  simp only [syncBuyableDigit]
  rcases h with h | h
  · rw [if_pos h]
  · by_cases h7 : (natDigits r.id).length < 7
    · rw [if_pos h7]
    · rw [if_neg h7, if_neg h]

theorem sync_id_digits (r : ItemRecord) (h7 : 7 ≤ (natDigits r.id).length)
    (hbot : r.bot = 1 ∨ r.bot = 2 ∨ r.bot = 3) :
    natDigits (syncBuyableDigit r).id =
      (natDigits r.id).set 6 (if r.buyable = 0 then 1 else 0) := by
  rw [sync_branch r h7 hbot]
  show natDigits (fromDigits _) = _
  have hv : (if r.buyable = 0 then 1 else 0) ≤ 1 := by
    by_cases h : r.buyable = 0 <;> simp [h]
  apply natDigits_fromDigits
  · apply List.ne_nil_of_length_pos
    rw [List.length_set]
    omega
  · intro d hd
    rcases List.mem_or_eq_of_mem_set hd with h | h
    · exact natDigits_digit_lt _ d h
    · omega
  · rw [headD_set _ _ _ _ (by omega)]
    exact natDigits_headD_ne_zero _ (id_pos_of_seven_digits _ h7)

/-! ## Normal form of the `save_bin` block construction

The block loop of `save_bin` performs ascending, exact-fit slice assignments
into a zeroed buffer; `foldWrites_eq` turns such a write plan into an explicit
concatenation with zero gap fills. -/

theorem setSlice_step (done v : List Nat) (m a b : Nat)
    (hd : done.length ≤ a) (hb : b = a + v.length)
    (hm : a - done.length + v.length ≤ m) :
    setSlice (done ++ List.replicate m 0) a b v
      = (done ++ (List.replicate (a - done.length) 0 ++ v)) ++
        List.replicate (m - (a - done.length) - v.length) 0 := by
  have h1 : done.length ≤ b := by omega
  rw [setSlice, List.take_append_eq_append_take, List.take_of_length_le hd,
    List.take_replicate, List.drop_append_eq_append_drop,
    List.drop_eq_nil_of_le h1, List.drop_replicate, Nat.min_eq_left (by omega)]
  subst hb
  have h2 : m - (a + v.length - done.length) = m - (a - done.length) - v.length := by
    omega
  rw [h2]
  simp [List.append_assoc]

theorem set_eq_setSlice (l : List Nat) (i v : Nat) (h : i < l.length) :
    l.set i v = setSlice l i (i + 1) [v] := by
  rw [setSlice, List.set_eq_take_cons_drop v h]
  simp

theorem foldWrites_eq (ws : List (Nat × Nat × List Nat)) :
    ∀ (done : List Nat) (q : Nat), wfWrites ws done.length q →
    List.foldl applyWrite (done ++ List.replicate (q - done.length) 0) ws
      = done ++ fillGaps ws done.length q := by
  induction ws with
  | nil => intro done q h; simp [fillGaps]
  | cons w ws ih =>
    obtain ⟨a, b, v⟩ := w
    intro done q h
    obtain ⟨h1, h2, h3, h4⟩ := h
    rw [List.foldl_cons]
    show List.foldl applyWrite (setSlice _ a b v) ws = _
    rw [setSlice_step done v (q - done.length) a b h1 h2 (by omega)]
    have hq : q - done.length - (a - done.length) - v.length = q - b := by omega
    rw [hq]
    have hlen : (done ++ (List.replicate (a - done.length) 0 ++ v)).length = b := by
      simp
      omega
    have hih := ih (done ++ (List.replicate (a - done.length) 0 ++ v)) q
      (by rw [hlen]; exact h4)
    rw [hlen] at hih
    rw [hih, fillGaps]
    simp [List.append_assoc]

theorem pad_string_length (s : List Nat) (h : s.length ≤ 31) :
    (pad_string s).length = 31 := by
  simp [pad_string]
  omega

theorem buildBlock_foldl (r : ItemRecord) (hname : r.name.length ≤ 31) :
    buildBlock r = List.foldl applyWrite (List.replicate 236 0) (planA r) := by
  have hpad : (pad_string r.name).length = 31 := pad_string_length _ hname
  have hlA : (setSlice (List.replicate 236 0) 0 4 (natToLE 4 r.id)).length = 236 := by
    have hs := setSlice_length (List.replicate 236 0) (natToLE 4 r.id) 0 4
      (by simp [natToLE_length]) (by omega) (by simp)
    simpa using hs
  have hl2 : (setSlice (setSlice (List.replicate 236 0) 0 4 (natToLE 4 r.id)) 4 35
      (pad_string r.name)).length = 236 := by
    have hs := setSlice_length (setSlice (List.replicate 236 0) 0 4 (natToLE 4 r.id))
      (pad_string r.name) 4 35 (by simp [hpad]) (by omega) (by rw [hlA]; omega)
    rw [hs, hlA]
  simp only [buildBlock, planA, List.foldl, applyWrite]
  rw [set_eq_setSlice _ _ _ (by rw [hl2]; omega)]

theorem buildBlock_eq (r : ItemRecord) (hname : r.name.length ≤ 31) :
    buildBlock r = blockShape r := by
  have hpad : (pad_string r.name).length = 31 := pad_string_length _ hname
  rw [buildBlock_foldl r hname]
  have h0 : List.replicate 236 0
      = ([] : List Nat) ++ List.replicate (236 - ([] : List Nat).length) 0 := by
    simp
  rw [h0, foldWrites_eq (planA r) [] 236 (by
    simp [wfWrites, planA, natToLE_length, hpad])]
  simp [fillGaps, planA, blockShape, natToLE_length, hpad, List.append_assoc]

/-! ## Extraction lemmas and the per-block Codec A round trip -/

theorem slice_cons (x : Nat) (rest : List Nat) (a b : Nat) (ha : 1 ≤ a) :
    slice (x :: rest) a b = slice rest (a - 1) (b - 1) := by
  have h := slice_append_right [x] rest a b (by simpa using ha)
  simpa using h

theorem slice_cons_here (x : Nat) (rest : List Nat) : slice (x :: rest) 0 1 = [x] := rfl

theorem slice_zero_take (l : List Nat) (b : Nat) : slice l 0 b = l.take b := by
  simp [slice]

theorem getD_eq_slice (l : List Nat) (i d : Nat) : l.getD i d = (slice l i (i + 1)).getD 0 d := by
  rw [slice, List.getD_eq_getElem?_getD, List.getD_eq_getElem?_getD,
    List.getElem?_take, if_pos (by omega), List.getElem?_drop]
  simp

theorem slice_subset (l : List Nat) (a b : Nat) : slice l a b ⊆ l :=
  fun x hx => List.drop_subset a l (List.take_subset _ _ hx)

theorem get_int_lt_of_le (bs : List Nat) (k : Nat) (h : ∀ b ∈ bs, b < 256)
    (hk : bs.length ≤ k) : get_int bs < 256 ^ k :=
  Nat.lt_of_lt_of_le (get_int_lt bs h) (Nat.pow_le_pow_right (by omega) hk)

theorem getD_lt_256 (l : List Nat) (i : Nat) (h : ∀ b ∈ l, b < 256) :
    l.getD i 0 < 256 := by
  rw [List.getD_eq_getElem?_getD]
  cases hx : l[i]? with
  | none => simp
  | some x =>
    simp only [Option.getD_some]
    exact h x (List.getElem?_mem hx)

theorem slice_length_le (l : List Nat) (a b : Nat) : (slice l a b).length ≤ b - a := by
  rw [slice_length]
  omega

/-- Inversion of a successful `parseBlock`. -/
theorem parseBlock_cases (block : List Nat) (r : ItemRecord) (h : parseBlock block = some r) :
    ∃ b p u, deriveBPB (get_int (slice block 0 4)) = some (b, p, u) ∧
      r = { id := get_int (slice block 0 4), name := removenullbyte (slice block 4 35)
            level := block.getD 35 0, buy := get_int (slice block 37 41)
            coins := get_int (slice block 41 45), sell := get_int (slice block 45 49)
            days := get_int (slice block 56 58), stats := parse_stats block
            bot := b, part := p, buyable := u } := by
  revert h
  simp only [parseBlock]
  cases hd : deriveBPB (get_int (slice block 0 4)) with
  | none => intro h; exact absurd h (by simp)
  | some t =>
    obtain ⟨b, p, u⟩ := t
    intro h
    exact ⟨b, p, u, rfl, (Option.some.inj h).symm⟩

/-- Every record produced by `parseBlock` from a well-formed byte block is
in range for every write of the `save_bin` loop, carries a short null-free
name, and has its derived triple determined by its identifier. -/
theorem parseBlock_inv (block : List Nat) (r : ItemRecord)
    (hbytes : ∀ b ∈ block, b < 256) (h : parseBlock block = some r) :
    okA r = true ∧ r.name.length ≤ 31 ∧ (∀ c ∈ r.name, c ≠ 0) ∧ (∀ c ∈ r.name, c < 256) ∧
    deriveBPB r.id = some (r.bot, r.part, r.buyable) ∧ inRange r := by
  obtain ⟨b, p, u, hd, hr⟩ := parseBlock_cases block r h
  have hslice : ∀ a c : Nat, ∀ x ∈ slice block a c, x < 256 :=
    fun a c x hx => hbytes x (slice_subset block a c hx)
  have hint : ∀ a c : Nat, c - a ≤ 4 → get_int (slice block a c) < 2 ^ 32 := by
    intro a c hc
    have := get_int_lt_of_le (slice block a c) 4 (hslice a c)
      (Nat.le_trans (slice_length_le _ _ _) hc)
    omega
  have hname1 : (removenullbyte (slice block 4 35)).length ≤ 31 := by
    have h1 := takeWhile_length_le (fun b => b != 0) (slice block 4 35)
    have h2 := slice_length_le block 4 35
    rw [removenullbyte]
    omega
  have hname2 : ∀ c ∈ removenullbyte (slice block 4 35), c ≠ 0 := by
    intro c hc
    have := List.mem_takeWhile_imp hc
    simpa using this
  have hname3 : ∀ c ∈ removenullbyte (slice block 4 35), c < 256 :=
    fun c hc => hslice 4 35 c (List.takeWhile_subset _ hc)
  have hdays : get_int (slice block 56 58) < 2 ^ 16 := by
    have := get_int_lt_of_le (slice block 56 58) 2 (hslice 56 58)
      (Nat.le_trans (slice_length_le _ _ _) (by omega))
    omega
  have hlevel : block.getD 35 0 < 256 := getD_lt_256 block 35 hbytes
  subst hr
  refine ⟨?_, hname1, hname2, hname3, hd, ?_⟩
  · simp only [okA, Bool.and_eq_true, decide_eq_true_eq, List.all_eq_true]
    simp only [parse_stats]
    exact ⟨⟨⟨⟨⟨⟨⟨⟨⟨⟨⟨⟨⟨⟨⟨⟨⟨⟨⟨⟨⟨hint 0 4 (by omega),
      fun c hc => hname3 c hc⟩, hlevel⟩, hint 37 41 (by omega)⟩, hint 41 45 (by omega)⟩,
      hint 45 49 (by omega)⟩, hdays⟩, hint 58 62 (by omega)⟩, hint 62 66 (by omega)⟩,
      hint 66 70 (by omega)⟩, hint 70 74 (by omega)⟩, hint 74 78 (by omega)⟩,
      hint 78 82 (by omega)⟩, hint 82 86 (by omega)⟩, hint 86 90 (by omega)⟩,
      hint 90 94 (by omega)⟩, hint 94 98 (by omega)⟩, hint 98 102 (by omega)⟩,
      hint 102 106 (by omega)⟩, hint 106 110 (by omega)⟩, hint 110 114 (by omega)⟩,
      hint 114 118 (by omega)⟩
  · simp only [inRange, parse_stats]
    exact ⟨hint 0 4 (by omega), hlevel, hint 37 41 (by omega), hint 41 45 (by omega),
      hint 45 49 (by omega), hdays, hint 58 62 (by omega), hint 62 66 (by omega),
      hint 66 70 (by omega), hint 70 74 (by omega), hint 74 78 (by omega),
      hint 78 82 (by omega), hint 82 86 (by omega), hint 86 90 (by omega),
      hint 90 94 (by omega), hint 94 98 (by omega), hint 98 102 (by omega),
      hint 102 106 (by omega), hint 106 110 (by omega), hint 110 114 (by omega),
      hint 114 118 (by omega)⟩

/-- Re-decoding an encoded block yields the record unchanged. -/
theorem parse_blockShape (r : ItemRecord)
    (hname : r.name.length ≤ 31) (hname0 : ∀ c ∈ r.name, c ≠ 0)
    (hrange : inRange r)
    (hder : deriveBPB r.id = some (r.bot, r.part, r.buyable)) :
    parseBlock (blockShape r) = some r := by
  obtain ⟨hid, hlevel, hbuy, hcoins, hsell, hdays, hs1, hs2, hs3, hs4, hs5, hs6, hs7,
    hs8, hs9, hs10, hs11, hs12, hs13, hs14, hs15⟩ := hrange
  have hpad : (pad_string r.name).length = 31 := pad_string_length _ hname
  have e1 : slice (blockShape r) 0 4 = natToLE 4 r.id := by
    simp [blockShape, slice_append_right, slice_cons, slice_here, natToLE_length, hpad]
  have eid : get_int (slice (blockShape r) 0 4) = r.id := by
    rw [e1, get_int_natToLE 4 r.id (by omega)]
  have ename : removenullbyte (slice (blockShape r) 4 35) = r.name := by
    have e2 : slice (blockShape r) 4 35 = pad_string r.name := by
      simp [blockShape, slice_append_right, slice_cons, slice_here, natToLE_length, hpad]
    rw [e2, pad_string, removenullbyte,
      takeWhile_append_all _ _ _ (by intro x hx; simpa using hname0 x hx),
      takeWhile_replicate_zero, List.append_nil]
  have elevel : (blockShape r).getD 35 0 = r.level := by
    rw [getD_eq_slice]
    have e3 : slice (blockShape r) 35 36 = [r.level] := by
      simp [blockShape, slice_append_right, slice_cons, slice_cons_here, slice_here,
        natToLE_length, hpad]
    rw [e3]
    rfl
  have efield : ∀ (a : Nat) (v : Nat), v < 2 ^ 32 → slice (blockShape r) a (a + 4) = natToLE 4 v →
      get_int (slice (blockShape r) a (a + 4)) = v := by
    intro a v hv he
    rw [he, get_int_natToLE 4 v (by omega)]
  simp only [parseBlock, eid, hder, Option.some.injEq]
  have ebuy : get_int (slice (blockShape r) 37 41) = r.buy := by
    refine efield 37 r.buy hbuy ?_
    simp [blockShape, slice_append_right, slice_cons, slice_here, natToLE_length, hpad]
  have ecoins : get_int (slice (blockShape r) 41 45) = r.coins := by
    refine efield 41 r.coins hcoins ?_
    simp [blockShape, slice_append_right, slice_cons, slice_here, natToLE_length, hpad]
  have esell : get_int (slice (blockShape r) 45 49) = r.sell := by
    refine efield 45 r.sell hsell ?_
    simp [blockShape, slice_append_right, slice_cons, slice_here, natToLE_length, hpad]
  have edays : get_int (slice (blockShape r) 56 58) = r.days := by
    have e4 : slice (blockShape r) 56 58 = natToLE 2 r.days := by
      simp [blockShape, slice_append_right, slice_cons, slice_here, natToLE_length, hpad]
    rw [e4, get_int_natToLE 2 r.days (by omega)]
  have estats : parse_stats (blockShape r) = r.stats := by
    have g1 : get_int (slice (blockShape r) 58 62) = r.stats.hpp := by
      refine efield 58 _ hs1 ?_
      simp [blockShape, slice_append_right, slice_cons, slice_here, natToLE_length, hpad]
    have g2 : get_int (slice (blockShape r) 62 66) = r.stats.attmin := by
      refine efield 62 _ hs2 ?_
      simp [blockShape, slice_append_right, slice_cons, slice_here, natToLE_length, hpad]
    have g3 : get_int (slice (blockShape r) 66 70) = r.stats.attmax := by
      refine efield 66 _ hs3 ?_
      simp [blockShape, slice_append_right, slice_cons, slice_here, natToLE_length, hpad]
    have g4 : get_int (slice (blockShape r) 70 74) = r.stats.atttransmin := by
      refine efield 70 _ hs4 ?_
      simp [blockShape, slice_append_right, slice_cons, slice_here, natToLE_length, hpad]
    have g5 : get_int (slice (blockShape r) 74 78) = r.stats.atttransmax := by
      refine efield 74 _ hs5 ?_
      simp [blockShape, slice_append_right, slice_cons, slice_here, natToLE_length, hpad]
    have g6 : get_int (slice (blockShape r) 78 82) = r.stats.transgauge := by
      refine efield 78 _ hs6 ?_
      simp [blockShape, slice_append_right, slice_cons, slice_here, natToLE_length, hpad]
    have g7 : get_int (slice (blockShape r) 82 86) = r.stats.crit := by
      refine efield 82 _ hs7 ?_
      simp [blockShape, slice_append_right, slice_cons, slice_here, natToLE_length, hpad]
    have g8 : get_int (slice (blockShape r) 86 90) = r.stats.evade := by
      refine efield 86 _ hs8 ?_
      simp [blockShape, slice_append_right, slice_cons, slice_here, natToLE_length, hpad]
    have g9 : get_int (slice (blockShape r) 90 94) = r.stats.spectrans := by
      refine efield 90 _ hs9 ?_
      simp [blockShape, slice_append_right, slice_cons, slice_here, natToLE_length, hpad]
    have g10 : get_int (slice (blockShape r) 94 98) = r.stats.speed := by
      refine efield 94 _ hs10 ?_
      simp [blockShape, slice_append_right, slice_cons, slice_here, natToLE_length, hpad]
    have g11 : get_int (slice (blockShape r) 98 102) = r.stats.transbotdef := by
      refine efield 98 _ hs11 ?_
      simp [blockShape, slice_append_right, slice_cons, slice_here, natToLE_length, hpad]
    have g12 : get_int (slice (blockShape r) 102 106) = r.stats.transbotatt := by
      refine efield 102 _ hs12 ?_
      simp [blockShape, slice_append_right, slice_cons, slice_here, natToLE_length, hpad]
    have g13 : get_int (slice (blockShape r) 106 110) = r.stats.transspeed := by
      refine efield 106 _ hs13 ?_
      simp [blockShape, slice_append_right, slice_cons, slice_here, natToLE_length, hpad]
    have g14 : get_int (slice (blockShape r) 110 114) = r.stats.rangeatt := by
      refine efield 110 _ hs14 ?_
      simp [blockShape, slice_append_right, slice_cons, slice_here, natToLE_length, hpad]
    have g15 : get_int (slice (blockShape r) 114 118) = r.stats.luk := by
      refine efield 114 _ hs15 ?_
      simp [blockShape, slice_append_right, slice_cons, slice_here, natToLE_length, hpad]
    show parse_stats (blockShape r) = ⟨r.stats.hpp, r.stats.attmin, r.stats.attmax,
      r.stats.atttransmin, r.stats.atttransmax, r.stats.transgauge, r.stats.crit,
      r.stats.evade, r.stats.spectrans, r.stats.speed, r.stats.transbotdef,
      r.stats.transbotatt, r.stats.transspeed, r.stats.rangeatt, r.stats.luk⟩
    simp only [parse_stats, ItemStats.mk.injEq]
    exact ⟨g1, g2, g3, g4, g5, g6, g7, g8, g9, g10, g11, g12, g13, g14, g15⟩
  show _ = ItemRecord.mk r.id r.name r.level r.buy r.coins r.sell r.days r.stats
    r.bot r.part r.buyable
  simp only [ItemRecord.mk.injEq]
  exact ⟨trivial, ename, elevel, ebuy, ecoins, esell, edays, estats, trivial, trivial, trivial⟩

theorem encodeBlock_eq (r : ItemRecord) (hok : okA r = true) (hname : r.name.length ≤ 31) :
    encodeBlock r = some (blockShape r) := by
  rw [encodeBlock, if_pos hok, buildBlock_eq r hname]

theorem blockShape_length (r : ItemRecord) (hname : r.name.length ≤ 31) :
    (blockShape r).length = 236 := by
  have hpad : (pad_string r.name).length = 31 := pad_string_length _ hname
  simp [blockShape, natToLE_length, hpad]

theorem blockShape_bytes_lt (r : ItemRecord) (hname : ∀ c ∈ r.name, c < 256)
    (hlevel : r.level < 256) : ∀ b ∈ blockShape r, b < 256 := by
  have hrep : ∀ (k : Nat), ∀ b ∈ List.replicate k 0, b < 256 := by
    intro k b hb
    rw [List.eq_of_mem_replicate hb]
    omega
  have hone : ∀ (x : Nat), x < 256 → ∀ b ∈ [x], b < 256 := by
    intro x hx b hb
    rw [List.mem_singleton.1 hb]
    omega
  rw [blockShape, pad_string]
  simp only [List.forall_mem_append]
  exact ⟨⟨⟨⟨⟨⟨⟨⟨⟨⟨⟨⟨⟨⟨⟨⟨⟨⟨⟨⟨⟨⟨⟨⟨natToLE_bytes_lt 4 r.id, ⟨hname, hrep (31 - r.name.length)⟩⟩,
    hone r.level hlevel⟩, hone 0 (by omega)⟩, natToLE_bytes_lt 4 r.buy⟩, natToLE_bytes_lt 4
    r.coins⟩, natToLE_bytes_lt 4 r.sell⟩, hrep 7⟩, natToLE_bytes_lt 2 r.days⟩, natToLE_bytes_lt
    4 r.stats.hpp⟩, natToLE_bytes_lt 4 r.stats.attmin⟩, natToLE_bytes_lt 4 r.stats.attmax⟩,
    natToLE_bytes_lt 4 r.stats.atttransmin⟩, natToLE_bytes_lt 4 r.stats.atttransmax⟩,
    natToLE_bytes_lt 4 r.stats.transgauge⟩, natToLE_bytes_lt 4 r.stats.crit⟩, natToLE_bytes_lt 4
    r.stats.evade⟩, natToLE_bytes_lt 4 r.stats.spectrans⟩, natToLE_bytes_lt 4 r.stats.speed⟩,
    natToLE_bytes_lt 4 r.stats.transbotdef⟩, natToLE_bytes_lt 4 r.stats.transbotatt⟩,
    natToLE_bytes_lt 4 r.stats.transspeed⟩, natToLE_bytes_lt 4 r.stats.rangeatt⟩,
    natToLE_bytes_lt 4 r.stats.luk⟩, hrep 118⟩

/-- Per-block round trip: a record decoded from a byte block re-encodes to a
block that decodes back to the same record. -/
theorem block_roundtrip (block : List Nat) (r : ItemRecord)
    (hbytes : ∀ b ∈ block, b < 256) (h : parseBlock block = some r) :
    encodeBlock r = some (blockShape r) ∧ parseBlock (blockShape r) = some r ∧
    (blockShape r).length = 236 ∧ (∀ b ∈ blockShape r, b < 256) := by
  obtain ⟨hok, hn1, hn0, hnlt, hder, hrange⟩ := parseBlock_inv block r hbytes h
  exact ⟨encodeBlock_eq r hok hn1, parse_blockShape r hn1 hn0 hrange hder,
    blockShape_length r hn1, blockShape_bytes_lt r hnlt hrange.2.1⟩

/-- Round trip of the block-reading loop: on an error-free decode, the encode
loop succeeds and its output decodes to the same records. -/
theorem loadLoop_roundtrip (n : Nat) : ∀ (bs : List Nat) (items : List ItemRecord),
    (∀ b ∈ bs, b < 256) → loadLoop n bs = (items, false) →
    ∃ out : List (List Nat), mapOpt encodeBlock items = some out ∧
      (joinAll out).length = 236 * n ∧ (∀ b ∈ joinAll out, b < 256) ∧
      loadLoop n (joinAll out) = (items, false) := by
  induction n with
  | zero =>
    intro bs items hb h
    simp only [loadLoop] at h
    injection h with h1 h2
    subst h1
    exact ⟨[], rfl, rfl, by simp [joinAll], rfl⟩
  | succ n ih =>
    intro bs items hb h
    simp only [loadLoop] at h
    cases hp : parseBlock (bs.take 236) with
    | none =>
      rw [hp] at h
      simp at h
    | some it =>
      rw [hp] at h
      injection h with h1 h2
      have hbt : ∀ b ∈ bs.take 236, b < 256 := fun b hb2 => hb b (List.take_subset _ _ hb2)
      have hbd : ∀ b ∈ bs.drop 236, b < 256 := fun b hb2 => hb b (List.drop_subset _ _ hb2)
      obtain ⟨henc, hparse, hlen, hbytes2⟩ := block_roundtrip _ _ hbt hp
      have hload : loadLoop n (bs.drop 236) = ((loadLoop n (bs.drop 236)).1, false) := by
        rw [Prod.ext_iff]
        exact ⟨rfl, h2⟩
      obtain ⟨out, ho1, ho2, ho3, ho4⟩ := ih (bs.drop 236) (loadLoop n (bs.drop 236)).1 hbd hload
      refine ⟨blockShape it :: out, ?_, ?_, ?_, ?_⟩
      · rw [← h1]
        simp only [mapOpt]
        rw [henc, ho1]
      · simp only [joinAll, List.length_append, ho2, hlen]
        ring
      · intro b hb2
        rcases List.mem_append.1 hb2 with hx | hx
        exacts [hbytes2 b hx, ho3 b hx]
      · simp only [loadLoop, joinAll]
        rw [List.take_left' hlen, hparse, List.drop_left' hlen, ho4, ← h1]

/-- Whole-file round trip for Codec A. -/
theorem loadItems_roundtrip (bs : List Nat) (hb : ∀ b ∈ bs, b < 256)
    (h : (loadItems bs).2 = false) :
    ∃ out, saveBin (loadItems bs).1 = some out ∧
      loadItems out = ((loadItems bs).1, false) := by
  have hload : loadLoop ((bs.length - 4) / 236) (bs.drop 4) = ((loadItems bs).1, false) := by
    rw [Prod.ext_iff]
    exact ⟨rfl, h⟩
  obtain ⟨out, ho1, ho2, ho3, ho4⟩ := loadLoop_roundtrip ((bs.length - 4) / 236) (bs.drop 4)
    (loadItems bs).1 (fun b hb2 => hb b (List.drop_subset _ _ hb2)) hload
  refine ⟨[0, 0, 0, 0] ++ joinAll out, ?_, ?_⟩
  · rw [saveBin, ho1]
  · simp only [loadItems]
    have hdrop : ([0, 0, 0, 0] ++ joinAll out).drop 4 = joinAll out := rfl
    have hlen4 : ([0, 0, 0, 0] ++ joinAll out).length = 4 + 236 * ((bs.length - 4) / 236) := by
      simp [ho2]
      omega
    rw [hdrop, hlen4]
    have hcount : (4 + 236 * ((bs.length - 4) / 236) - 4) / 236 = (bs.length - 4) / 236 := by
      omega
    rw [hcount, ho4]
    rfl

/-- When every full block parses, the loop reads exactly `n` records in file
order and reports no error. -/
theorem loadLoop_of_parses (n : Nat) : ∀ bs : List Nat,
    (∀ i, i < n → (parseBlock (slice bs (236 * i) (236 * i + 236))).isSome) →
    (loadLoop n bs).2 = false ∧ (loadLoop n bs).1.length = n ∧
    (∀ i, i < n → (loadLoop n bs).1[i]? = parseBlock (slice bs (236 * i) (236 * i + 236))) := by
  induction n with
  | zero => exact fun bs h => ⟨rfl, rfl, fun i hi => absurd hi (by omega)⟩
  | succ n ih =>
    intro bs h
    have e0 : slice bs (236 * 0) (236 * 0 + 236) = bs.take 236 := by
      simp [slice]
    have h0 := h 0 (by omega)
    rw [e0] at h0
    obtain ⟨it, hit⟩ := Option.isSome_iff_exists.mp h0
    have eshift : ∀ i : Nat, slice bs (236 * (i + 1)) (236 * (i + 1) + 236)
        = slice (bs.drop 236) (236 * i) (236 * i + 236) := by
      intro i
      rw [slice_drop]
      congr 1 <;> ring
    have hshift : ∀ i, i < n →
        (parseBlock (slice (bs.drop 236) (236 * i) (236 * i + 236))).isSome := by
      intro i hi
      have := h (i + 1) (by omega)
      rwa [eshift i] at this
    obtain ⟨e2f, e2l, e2i⟩ := ih (bs.drop 236) hshift
    simp only [loadLoop, hit]
    refine ⟨e2f, by simp [e2l], ?_⟩
    intro i hi
    cases i with
    | zero =>
      rw [e0, hit]
      exact List.getElem?_cons_zero
    | succ j =>
      rw [List.getElem?_cons_succ, e2i j (by omega), eshift j]

/-! ## Codec B: frame property of `rebuild_item` and the unmutated round trip -/

theorem ext_len {xs ys : List Nat} (hl : xs.length = ys.length)
    (h : ∀ j, j < xs.length → xs[j]? = ys[j]?) : xs = ys := by
  apply List.ext_getElem?
  intro n
  by_cases hn : n < xs.length
  · exact h n hn
  · rw [List.getElem?_eq_none (by omega), List.getElem?_eq_none (by omega)]

theorem getElem?_eq_some_getD (l : List Nat) (i : Nat) (h : i < l.length) :
    l[i]? = some (l.getD i 0) := by
  rw [List.getD_eq_getElem?_getD, List.getElem?_eq_getElem h]
  rfl

theorem nameBytesB_length_le (name : List Nat) : (nameBytesB name).length ≤ 32 := by
  simp only [nameBytesB, List.length_append, List.length_take, List.length_cons,
    List.length_nil]
  omega

/-- Frame and field content of one rebuilt shop record block. -/
theorem rebuild_item_spec (it : ShopItem) (h108 : it.block.length = 108)
    (hid : it.id < 2 ^ 32) (hcat : it.category < 2 ^ 32) :
    ∃ out, rebuild_item it = some out ∧ out.length = 108 ∧
      (∀ i, 32 ≤ i → i ≠ 80 → ¬(84 ≤ i ∧ i < 88) → ¬(92 ≤ i ∧ i < 96) →
        out[i]? = it.block[i]?) ∧
      slice out 0 32 = nameBytesB it.name ++
        List.replicate (32 - (nameBytesB it.name).length) 0 ∧
      out[80]? = some (it.buyable % 256) ∧
      slice out 84 88 = natToLE 4 it.category ∧
      slice out 92 96 = natToLE 4 it.id := by
  have hn32 : (nameBytesB it.name).length ≤ 32 := nameBytesB_length_le it.name
  have l1 : (setSlice it.block 0 32 (List.replicate 32 0)).length = 108 := by
    rw [setSlice_length it.block (List.replicate 32 0) 0 32 (by simp) (by omega) (by omega)]
    exact h108
  have l2 : (setSlice (setSlice it.block 0 32 (List.replicate 32 0)) 0 (nameBytesB it.name).length (nameBytesB it.name)).length = 108 := by
    rw [setSlice_length (setSlice it.block 0 32 (List.replicate 32 0)) (nameBytesB it.name) 0 (nameBytesB it.name).length
      (by omega) (by omega) (by rw [l1]; omega), l1]
  have l3 : (setSlice (setSlice (setSlice it.block 0 32 (List.replicate 32 0)) 0 (nameBytesB it.name).length (nameBytesB it.name)) 84 88 (natToLE 4 it.category)).length = 108 := by
    rw [setSlice_length (setSlice (setSlice it.block 0 32 (List.replicate 32 0)) 0 (nameBytesB it.name).length (nameBytesB it.name)) (natToLE 4 it.category) 84 88
      (by simp [natToLE_length]) (by omega) (by rw [l2]; omega), l2]
  have l4 : ((setSlice (setSlice (setSlice it.block 0 32 (List.replicate 32 0)) 0 (nameBytesB it.name).length (nameBytesB it.name)) 84 88 (natToLE 4 it.category)).set 80 (it.buyable % 256)).length = 108 := by
    rw [List.length_set, l3]
  have l5 : (setSlice ((setSlice (setSlice (setSlice it.block 0 32 (List.replicate 32 0)) 0 (nameBytesB it.name).length (nameBytesB it.name)) 84 88 (natToLE 4 it.category)).set 80 (it.buyable % 256)) 92 96 (natToLE 4 it.id)).length = 108 := by
    rw [setSlice_length ((setSlice (setSlice (setSlice it.block 0 32 (List.replicate 32 0)) 0 (nameBytesB it.name).length (nameBytesB it.name)) 84 88 (natToLE 4 it.category)).set 80 (it.buyable % 256)) (natToLE 4 it.id) 92 96
      (by simp [natToLE_length]) (by omega) (by rw [l4]; omega), l4]
  have p5lt : ∀ i : Nat, i < 92 → (setSlice ((setSlice (setSlice (setSlice it.block 0 32 (List.replicate 32 0)) 0 (nameBytesB it.name).length (nameBytesB it.name)) 84 88 (natToLE 4 it.category)).set 80 (it.buyable % 256)) 92 96 (natToLE 4 it.id))[i]? = ((setSlice (setSlice (setSlice it.block 0 32 (List.replicate 32 0)) 0 (nameBytesB it.name).length (nameBytesB it.name)) 84 88 (natToLE 4 it.category)).set 80 (it.buyable % 256))[i]? := by
    intro i hi
    exact setSlice_getElem?_lt ((setSlice (setSlice (setSlice it.block 0 32 (List.replicate 32 0)) 0 (nameBytesB it.name).length (nameBytesB it.name)) 84 88 (natToLE 4 it.category)).set 80 (it.buyable % 256)) (natToLE 4 it.id) 92 96 i (by rw [l4]; omega) hi
  have p5ge : ∀ i : Nat, 96 ≤ i → (setSlice ((setSlice (setSlice (setSlice it.block 0 32 (List.replicate 32 0)) 0 (nameBytesB it.name).length (nameBytesB it.name)) 84 88 (natToLE 4 it.category)).set 80 (it.buyable % 256)) 92 96 (natToLE 4 it.id))[i]? = ((setSlice (setSlice (setSlice it.block 0 32 (List.replicate 32 0)) 0 (nameBytesB it.name).length (nameBytesB it.name)) 84 88 (natToLE 4 it.category)).set 80 (it.buyable % 256))[i]? := by
    intro i hi
    exact setSlice_getElem?_ge ((setSlice (setSlice (setSlice it.block 0 32 (List.replicate 32 0)) 0 (nameBytesB it.name).length (nameBytesB it.name)) 84 88 (natToLE 4 it.category)).set 80 (it.buyable % 256)) (natToLE 4 it.id) 92 96 i
      (by simp [natToLE_length]) (by omega) (by rw [l4]; omega) hi
  have p5mid : ∀ j : Nat, j < 4 → (setSlice ((setSlice (setSlice (setSlice it.block 0 32 (List.replicate 32 0)) 0 (nameBytesB it.name).length (nameBytesB it.name)) 84 88 (natToLE 4 it.category)).set 80 (it.buyable % 256)) 92 96 (natToLE 4 it.id))[92 + j]? = (natToLE 4 it.id)[j]? := by
    intro j hj
    exact setSlice_getElem?_mid ((setSlice (setSlice (setSlice it.block 0 32 (List.replicate 32 0)) 0 (nameBytesB it.name).length (nameBytesB it.name)) 84 88 (natToLE 4 it.category)).set 80 (it.buyable % 256)) (natToLE 4 it.id) 92 96 j (by rw [l4]; omega)
      (by rw [natToLE_length]; omega)
  have p4ne : ∀ i : Nat, i ≠ 80 → ((setSlice (setSlice (setSlice it.block 0 32 (List.replicate 32 0)) 0 (nameBytesB it.name).length (nameBytesB it.name)) 84 88 (natToLE 4 it.category)).set 80 (it.buyable % 256))[i]? = (setSlice (setSlice (setSlice it.block 0 32 (List.replicate 32 0)) 0 (nameBytesB it.name).length (nameBytesB it.name)) 84 88 (natToLE 4 it.category))[i]? := by
    intro i hi
    exact List.getElem?_set_ne (by omega)
  have p4eq : ((setSlice (setSlice (setSlice it.block 0 32 (List.replicate 32 0)) 0 (nameBytesB it.name).length (nameBytesB it.name)) 84 88 (natToLE 4 it.category)).set 80 (it.buyable % 256))[80]? = some (it.buyable % 256) :=
    List.getElem?_set_self (by rw [l3]; omega)
  have p3lt : ∀ i : Nat, i < 84 → (setSlice (setSlice (setSlice it.block 0 32 (List.replicate 32 0)) 0 (nameBytesB it.name).length (nameBytesB it.name)) 84 88 (natToLE 4 it.category))[i]? = (setSlice (setSlice it.block 0 32 (List.replicate 32 0)) 0 (nameBytesB it.name).length (nameBytesB it.name))[i]? := by
    intro i hi
    exact setSlice_getElem?_lt (setSlice (setSlice it.block 0 32 (List.replicate 32 0)) 0 (nameBytesB it.name).length (nameBytesB it.name)) (natToLE 4 it.category) 84 88 i (by rw [l2]; omega) hi
  have p3ge : ∀ i : Nat, 88 ≤ i → (setSlice (setSlice (setSlice it.block 0 32 (List.replicate 32 0)) 0 (nameBytesB it.name).length (nameBytesB it.name)) 84 88 (natToLE 4 it.category))[i]? = (setSlice (setSlice it.block 0 32 (List.replicate 32 0)) 0 (nameBytesB it.name).length (nameBytesB it.name))[i]? := by
    intro i hi
    exact setSlice_getElem?_ge (setSlice (setSlice it.block 0 32 (List.replicate 32 0)) 0 (nameBytesB it.name).length (nameBytesB it.name)) (natToLE 4 it.category) 84 88 i
      (by simp [natToLE_length]) (by omega) (by rw [l2]; omega) hi
  have p3mid : ∀ j : Nat, j < 4 → (setSlice (setSlice (setSlice it.block 0 32 (List.replicate 32 0)) 0 (nameBytesB it.name).length (nameBytesB it.name)) 84 88 (natToLE 4 it.category))[84 + j]? = (natToLE 4 it.category)[j]? := by
    intro j hj
    exact setSlice_getElem?_mid (setSlice (setSlice it.block 0 32 (List.replicate 32 0)) 0 (nameBytesB it.name).length (nameBytesB it.name)) (natToLE 4 it.category) 84 88 j (by rw [l2]; omega)
      (by rw [natToLE_length]; omega)
  have p2ge : ∀ i : Nat, (nameBytesB it.name).length ≤ i → (setSlice (setSlice it.block 0 32 (List.replicate 32 0)) 0 (nameBytesB it.name).length (nameBytesB it.name))[i]? = (setSlice it.block 0 32 (List.replicate 32 0))[i]? := by
    intro i hi
    exact setSlice_getElem?_ge (setSlice it.block 0 32 (List.replicate 32 0)) (nameBytesB it.name) 0 (nameBytesB it.name).length i
      (by omega) (by omega) (by omega) hi
  have p2mid : ∀ j : Nat, j < (nameBytesB it.name).length →
      (setSlice (setSlice it.block 0 32 (List.replicate 32 0)) 0 (nameBytesB it.name).length (nameBytesB it.name))[j]? = (nameBytesB it.name)[j]? := by
    intro j hj
    have h := setSlice_getElem?_mid (setSlice it.block 0 32 (List.replicate 32 0)) (nameBytesB it.name) 0
      (nameBytesB it.name).length j (by omega) hj
    simpa using h
  have p1ge : ∀ i : Nat, 32 ≤ i → (setSlice it.block 0 32 (List.replicate 32 0))[i]? = it.block[i]? := by
    intro i hi
    exact setSlice_getElem?_ge it.block (List.replicate 32 0) 0 32 i
      (by simp) (by omega) (by omega) hi
  have p1mid : ∀ j : Nat, j < 32 → (setSlice it.block 0 32 (List.replicate 32 0))[j]? = some 0 := by
    intro j hj
    have h := setSlice_getElem?_mid it.block (List.replicate 32 0) 0 32 j (by omega)
      (by simp; omega)
    rw [List.getElem?_replicate, if_pos hj] at h
    simpa using h
  refine ⟨setSlice ((setSlice (setSlice (setSlice it.block 0 32 (List.replicate 32 0)) 0 (nameBytesB it.name).length (nameBytesB it.name)) 84 88 (natToLE 4 it.category)).set 80 (it.buyable % 256)) 92 96 (natToLE 4 it.id), ?_, l5, ?_, ?_, ?_, ?_, ?_⟩
  · simp only [rebuild_item]
    rw [if_pos ⟨hid, hcat⟩]
  · intro i h32 h80 hc hi
    by_cases h92 : i < 92
    · by_cases h84 : i < 84
      · rw [p5lt i h92, p4ne i h80, p3lt i h84, p2ge i (by omega), p1ge i h32]
      · have h88 : 88 ≤ i := by omega
        rw [p5lt i h92, p4ne i h80, p3ge i h88, p2ge i (by omega), p1ge i h32]
    · have h96 : 96 ≤ i := by omega
      rw [p5ge i h96, p4ne i h80, p3ge i (by omega), p2ge i (by omega), p1ge i h32]
  · apply ext_len
    · rw [slice_length, l5]
      simp
      omega
    · intro j hj
      have hj32 : j < 32 := by
        rw [slice_length, l5] at hj
        omega
      have hsl := slice_getElem? (setSlice ((setSlice (setSlice (setSlice it.block 0 32 (List.replicate 32 0)) 0 (nameBytesB it.name).length (nameBytesB it.name)) 84 88 (natToLE 4 it.category)).set 80 (it.buyable % 256)) 92 96 (natToLE 4 it.id)) 0 32 j (by omega)
      simp only [Nat.zero_add] at hsl
      rw [hsl, p5lt j (by omega), p4ne j (by omega), p3lt j (by omega)]
      by_cases hjn : j < (nameBytesB it.name).length
      · rw [p2mid j hjn, List.getElem?_append, if_pos hjn]
      · rw [p2ge j (by omega), p1mid j hj32,
          List.getElem?_append_right (by omega), List.getElem?_replicate,
          if_pos (by omega)]
  · rw [p5lt 80 (by omega), p4eq]
  · apply ext_len
    · rw [slice_length, l5, natToLE_length]
      simp
    · intro j hj
      have hj4 : j < 4 := by
        rw [slice_length, l5] at hj
        omega
      rw [slice_getElem? (setSlice ((setSlice (setSlice (setSlice it.block 0 32 (List.replicate 32 0)) 0 (nameBytesB it.name).length (nameBytesB it.name)) 84 88 (natToLE 4 it.category)).set 80 (it.buyable % 256)) 92 96 (natToLE 4 it.id)) 84 88 j (by omega), p5lt (84 + j) (by omega),
        p4ne (84 + j) (by omega), p3mid j hj4]
  · apply ext_len
    · rw [slice_length, l5, natToLE_length]
      simp
    · intro j hj
      have hj4 : j < 4 := by
        rw [slice_length, l5] at hj
        omega
      rw [slice_getElem? (setSlice ((setSlice (setSlice (setSlice it.block 0 32 (List.replicate 32 0)) 0 (nameBytesB it.name).length (nameBytesB it.name)) 84 88 (natToLE 4 it.category)).set 80 (it.buyable % 256)) 92 96 (natToLE 4 it.id)) 92 96 j (by omega), p5mid j hj4]

/-- Per-block unmutated round trip for Codec B. -/
theorem shop_block_roundtrip (data : List Nat) (off : Nat) (block : List Nat)
    (hb : slice data off (off + 108) = block) (h108 : block.length = 108)
    (hlt : ∀ b ∈ block, b < 256) (hn : goodName block) :
    rebuild_item (parse_item data off) = some block := by
  obtain ⟨nb, hk, hnb, hregion⟩ := hn
  have hitblock : (parse_item data off).block = block := by
    simp only [parse_item]
    rw [hb]
  have hitname : (parse_item data off).name = nb := by
    simp only [parse_item]
    rw [hb, hregion,
      takeWhile_append_all _ nb _ (fun x hx => by simpa using (hnb x hx).1),
      takeWhile_replicate_zero, List.append_nil,
      List.filter_eq_self.2 (fun a ha => by simpa using (hnb a ha).2)]
  have hitid : (parse_item data off).id = get_int (slice block 92 96) := by
    simp only [parse_item]
    rw [hb]
  have hitcat : (parse_item data off).category = get_int (slice block 84 88) := by
    simp only [parse_item]
    rw [hb]
  have hitbuy : (parse_item data off).buyable = block.getD 80 0 := by
    simp only [parse_item]
    rw [hb]
  have hslb : ∀ a c : Nat, ∀ x ∈ slice block a c, x < 256 :=
    fun a c x hx => hlt x (slice_subset block a c hx)
  have hid : (parse_item data off).id < 2 ^ 32 := by
    rw [hitid]
    have := get_int_lt_of_le (slice block 92 96) 4 (hslb 92 96)
      (Nat.le_trans (slice_length_le _ _ _) (by omega))
    omega
  have hcat : (parse_item data off).category < 2 ^ 32 := by
    rw [hitcat]
    have := get_int_lt_of_le (slice block 84 88) 4 (hslb 84 88)
      (Nat.le_trans (slice_length_le _ _ _) (by omega))
    omega
  obtain ⟨out, hrw, hlen, hframe, hnreg, hbuyv, hcatv, hidv⟩ :=
    rebuild_item_spec (parse_item data off) (by rw [hitblock]; exact h108) hid hcat
  rw [hitblock] at hframe
  rw [hrw]
  apply congrArg some
  have hnB : nameBytesB (parse_item data off).name = nb ++ [0] := by
    rw [hitname, nameBytesB,
      List.filter_eq_self.2 (fun a ha => by simpa using (hnb a ha).2),
      List.take_of_length_le hk]
  have hnBlen : (nameBytesB (parse_item data off).name).length = nb.length + 1 := by
    rw [hnB]
    simp
  have hregion2 : slice out 0 32 = slice block 0 32 := by
    rw [hnreg, hregion, hnB, List.append_assoc]
    congr 1
    rw [List.singleton_append, ← List.replicate_succ]
    congr 1
    simp only [List.length_append, List.length_cons, List.length_nil]
    omega
  have hcat2 : slice out 84 88 = slice block 84 88 := by
    rw [hcatv, hitcat]
    have hl4 : (slice block 84 88).length = 4 := by
      rw [slice_length, h108]
      omega
    rw [show natToLE 4 (get_int (slice block 84 88))
        = natToLE (slice block 84 88).length (get_int (slice block 84 88)) by rw [hl4]]
    exact natToLE_get_int _ (hslb 84 88)
  have hid2 : slice out 92 96 = slice block 92 96 := by
    rw [hidv, hitid]
    have hl4 : (slice block 92 96).length = 4 := by
      rw [slice_length, h108]
      omega
    rw [show natToLE 4 (get_int (slice block 92 96))
        = natToLE (slice block 92 96).length (get_int (slice block 92 96)) by rw [hl4]]
    exact natToLE_get_int _ (hslb 92 96)
  apply ext_len (by rw [hlen, h108])
  intro j hj
  rw [hlen] at hj
  by_cases hj32 : j < 32
  · have h1 := slice_getElem? out 0 32 j (by omega)
    have h2 := slice_getElem? block 0 32 j (by omega)
    simp only [Nat.zero_add] at h1 h2
    rw [← h1, ← h2, hregion2]
  by_cases hj80 : j = 80
  · subst hj80
    rw [hbuyv, hitbuy, Nat.mod_eq_of_lt (getD_lt_256 block 80 hlt),
      getElem?_eq_some_getD block 80 (by omega)]
  by_cases hj84 : 84 ≤ j ∧ j < 88
  · have h1 := slice_getElem? out 84 88 (j - 84) (by omega)
    have h2 := slice_getElem? block 84 88 (j - 84) (by omega)
    rw [show 84 + (j - 84) = j by omega] at h1 h2
    rw [← h1, ← h2, hcat2]
  by_cases hj92 : 92 ≤ j ∧ j < 96
  · have h1 := slice_getElem? out 92 96 (j - 92) (by omega)
    have h2 := slice_getElem? block 92 96 (j - 92) (by omega)
    rw [show 92 + (j - 92) = j by omega] at h1 h2
    rw [← h1, ← h2, hid2]
  exact hframe j (by omega) hj80 hj84 hj92

/-- Codec B unmutated round trip on a 48-byte zero header and two blocks
whose name regions are null-padded ASCII strings. -/
theorem shop_two_block_roundtrip (bA bB : List Nat) (hA : bA.length = 108)
    (hB : bB.length = 108) (hltA : ∀ b ∈ bA, b < 256) (hltB : ∀ b ∈ bB, b < 256)
    (hnA : goodName bA) (hnB : goodName bB) :
    ∃ hdr items, shopLoad (List.replicate 48 0 ++ (bA ++ bB)) = some (hdr, items) ∧
      shopExport hdr items = some (List.replicate 48 0 ++ (bA ++ bB)) := by
  have hlen : (List.replicate 48 0 ++ (bA ++ bB)).length = 264 := by
    simp [hA, hB]
  have hsliceA : slice (List.replicate 48 0 ++ (bA ++ bB)) 48 (48 + 108) = bA := by
    rw [show (48 : Nat) + 108 = 156 from rfl,
      slice_append_right (List.replicate 48 0) _ 48 156 (by simp)]
    simp only [List.length_replicate]
    show slice (bA ++ bB) 0 108 = bA
    exact slice_here bA bB 108 hA
  have hsliceB : slice (List.replicate 48 0 ++ (bA ++ bB)) 156 (156 + 108) = bB := by
    rw [show (156 : Nat) + 108 = 264 from rfl,
      slice_append_right (List.replicate 48 0) _ 156 264 (by simp)]
    simp only [List.length_replicate]
    show slice (bA ++ bB) 108 216 = bB
    rw [slice_append_right bA bB 108 216 (by rw [hA])]
    rw [hA]
    show slice bB 0 108 = bB
    rw [slice_zero_take, List.take_of_length_le (by rw [hB])]
  have hra := shop_block_roundtrip _ 48 bA hsliceA hA hltA hnA
  have hrb := shop_block_roundtrip _ 156 bB hsliceB hB hltB hnB
  refine ⟨List.replicate 48 0,
    [parse_item (List.replicate 48 0 ++ (bA ++ bB)) 48,
     parse_item (List.replicate 48 0 ++ (bA ++ bB)) 156], ?_, ?_⟩
  · rw [shopLoad, if_neg (by rw [hlen]; omega), hlen,
      show (264 - 48) / 108 = 2 from rfl, show List.range 2 = [0, 1] from rfl]
    simp only [List.map_cons, List.map_nil]
    rw [List.take_left' (by simp)]
  · simp only [shopExport, mapOpt]
    rw [hra, hrb]
    simp only [joinAll, List.append_nil]

/-- Inversion of the derived-triple computation on its identifier. -/
theorem deriveBPB_spec (id b p u : Nat) (h : deriveBPB id = some (b, p, u)) :
    ((natDigits id).take 2 = [1, 1] → b = 1 ∧ (natDigits id)[2]? = some p ∧
      (u = 1 ↔ (natDigits id)[6]? = some 0)) ∧
    ((natDigits id).take 2 = [1, 2] → b = 2 ∧ (natDigits id)[2]? = some p ∧
      (u = 1 ↔ (natDigits id)[6]? = some 0)) ∧
    ((natDigits id).take 2 = [1, 3] → b = 3 ∧ (natDigits id)[2]? = some p ∧
      (u = 1 ↔ (natDigits id)[6]? = some 0)) ∧
    (¬((natDigits id).take 2 = [1, 1] ∨ (natDigits id).take 2 = [1, 2] ∨
        (natDigits id).take 2 = [1, 3]) → b = 0 ∧ p = 0 ∧ u = 0) := by
  have hpf : ∀ (k : Nat), (match (natDigits id)[2]?, (natDigits id)[6]? with
        | some p', some d => some (k, p', if d = 0 then 1 else 0)
        | _, _ => none) = some (b, p, u) →
      b = k ∧ (natDigits id)[2]? = some p ∧ (u = 1 ↔ (natDigits id)[6]? = some 0) := by
    intro k hm
    cases h2 : (natDigits id)[2]? with
    | none =>
      rw [h2] at hm
      cases h6 : (natDigits id)[6]? <;> rw [h6] at hm <;> simp at hm
    | some pv =>
      cases h6 : (natDigits id)[6]? with
      | none =>
        rw [h2, h6] at hm
        simp at hm
      | some d =>
        rw [h2, h6] at hm
        simp only [Option.some.injEq, Prod.mk.injEq] at hm
        obtain ⟨hb, hp, hu⟩ := hm
        refine ⟨hb.symm, by rw [hp], ?_⟩
        rw [← hu]
        by_cases hd : d = 0
        · simp [hd]
        · simp [hd]
  simp only [deriveBPB] at h
  by_cases h1 : (natDigits id).take 2 = [1, 1]
  · rw [if_pos h1] at h
    refine ⟨fun _ => hpf 1 h, fun hc => ?_, fun hc => ?_, fun hc => absurd (Or.inl h1) hc⟩
    · rw [h1] at hc
      simp at hc
    · rw [h1] at hc
      simp at hc
  rw [if_neg h1] at h
  by_cases h2 : (natDigits id).take 2 = [1, 2]
  · rw [if_pos h2] at h
    refine ⟨fun hc => absurd hc h1, fun _ => hpf 2 h, fun hc => ?_,
      fun hc => absurd (Or.inr (Or.inl h2)) hc⟩
    rw [h2] at hc
    simp at hc
  rw [if_neg h2] at h
  by_cases h3 : (natDigits id).take 2 = [1, 3]
  · rw [if_pos h3] at h
    exact ⟨fun hc => absurd hc h1, fun hc => absurd hc h2, fun _ => hpf 3 h,
      fun hc => absurd (Or.inr (Or.inr h3)) hc⟩
  rw [if_neg h3] at h
  simp only [Option.some.injEq, Prod.mk.injEq] at h
  obtain ⟨hb, hp, hu⟩ := h
  exact ⟨fun hc => absurd hc h1, fun hc => absurd hc h2, fun hc => absurd hc h3,
    fun _ => ⟨hb.symm, hp.symm, hu.symm⟩⟩

/-! ## The claims -/

/-- Claim C1: for every decoded 236-byte item block, if the decimal
representation of the identifier starts with 11, 12 or 13 then bot-kind is
1, 2 or 3 respectively, part is the third decimal digit and buyable is 1 iff
digit index 6 is 0; any other identifier gives bot = part = buyable = 0. -/
theorem claim1_codecA_derived_fields (block : List Nat) (r : ItemRecord)
    (h : parseBlock block = some r) :
    ((natDigits r.id).take 2 = [1, 1] → r.bot = 1 ∧ (natDigits r.id)[2]? = some r.part ∧
      (r.buyable = 1 ↔ (natDigits r.id)[6]? = some 0)) ∧
    ((natDigits r.id).take 2 = [1, 2] → r.bot = 2 ∧ (natDigits r.id)[2]? = some r.part ∧
      (r.buyable = 1 ↔ (natDigits r.id)[6]? = some 0)) ∧
    ((natDigits r.id).take 2 = [1, 3] → r.bot = 3 ∧ (natDigits r.id)[2]? = some r.part ∧
      (r.buyable = 1 ↔ (natDigits r.id)[6]? = some 0)) ∧
    (¬((natDigits r.id).take 2 = [1, 1] ∨ (natDigits r.id).take 2 = [1, 2] ∨
        (natDigits r.id).take 2 = [1, 3]) → r.bot = 0 ∧ r.part = 0 ∧ r.buyable = 0) := by
  obtain ⟨b, p, u, hd, hr⟩ := parseBlock_cases block r h
  subst hr
  dsimp only
  exact deriveBPB_spec (get_int (slice block 0 4)) b p u hd

theorem claim1_witness :
    parseBlock c1Block = some c1Rec ∧ (natDigits c1Rec.id).take 2 = [1, 3] ∧
    (c1Rec.bot = 3 ∧ (natDigits c1Rec.id)[2]? = some c1Rec.part ∧
      (c1Rec.buyable = 1 ↔ (natDigits c1Rec.id)[6]? = some 0)) :=
  ⟨by decide, by decide,
    (claim1_codecA_derived_fields c1Block c1Rec (by decide)).2.2.1 (by decide)⟩

/-- Claim C2: for a record with bot-kind in {1,2,3} and an identifier of at
least 7 decimal digits, `sync_buyable_digit` rewrites digit index 6 to 0 iff
buyable is 1 (else 1) and leaves every other digit unchanged; otherwise the
record is left entirely unchanged. The digit value clause is stated for the
0/1 values the data model gives the buyable flag. -/
theorem claim2_sync_buyable_contract (r : ItemRecord) :
    ((r.bot = 1 ∨ r.bot = 2 ∨ r.bot = 3) → 7 ≤ (natDigits r.id).length →
      (natDigits (syncBuyableDigit r).id).length = (natDigits r.id).length ∧
      (∀ i, i ≠ 6 → (natDigits (syncBuyableDigit r).id)[i]? = (natDigits r.id)[i]?) ∧
      (r.buyable ≤ 1 →
        (natDigits (syncBuyableDigit r).id)[6]? = some (if r.buyable = 1 then 0 else 1))) ∧
    ((¬(r.bot = 1 ∨ r.bot = 2 ∨ r.bot = 3) ∨ (natDigits r.id).length < 7) →
      syncBuyableDigit r = r) := by
  constructor
  · intro hbot h7
    have hdig := sync_id_digits r h7 hbot
    refine ⟨by rw [hdig, List.length_set], ?_, ?_⟩
    · intro i hi
      rw [hdig]
      exact List.getElem?_set_ne (by omega)
    · intro hb1
      rw [hdig, List.getElem?_set_self (by omega)]
      by_cases hb : r.buyable = 0
      · simp [hb]
      · have : r.buyable = 1 := by omega
        simp [this]
  · intro h
    rcases h with h | h
    · exact sync_noop r (Or.inr h)
    · exact sync_noop r (Or.inl h)

theorem claim2_witness :
    (c2Rec.bot = 1 ∨ c2Rec.bot = 2 ∨ c2Rec.bot = 3) ∧ 7 ≤ (natDigits c2Rec.id).length ∧
    c2Rec.buyable ≤ 1 ∧
    (natDigits (syncBuyableDigit c2Rec).id)[6]? = some (if c2Rec.buyable = 1 then 0 else 1) :=
  ⟨by decide, by decide, by decide,
    ((claim2_sync_buyable_contract c2Rec).1 (by decide) (by decide)).2.2 (by decide)⟩

/-- Claim C3: any item-table byte sequence accepted by `load_items` (no
decode error) re-encodes through `save_bin`, and re-decoding the encoded
file yields exactly the same records with every named field equal. -/
theorem claim3_codecA_roundtrip (bs : List Nat) (hb : ∀ b ∈ bs, b < 256)
    (h : (loadItems bs).2 = false) :
    ∃ out, saveBin (loadItems bs).1 = some out ∧
      loadItems out = ((loadItems bs).1, false) :=
  loadItems_roundtrip bs hb h

theorem claim3_witness :
    (∀ b ∈ c3Input, b < 256) ∧ (loadItems c3Input).2 = false ∧
    (∃ out, saveBin (loadItems c3Input).1 = some out ∧
      loadItems out = ((loadItems c3Input).1, false)) :=
  ⟨by decide, by decide, claim3_codecA_roundtrip c3Input (by decide) (by decide)⟩

/-- Claim C4: `rebuild_item` reproduces every byte of the retained 108-byte
raw block except the four named regions — the 32-byte name field at 0x00,
the buyable byte at 0x50, the category at 0x54–0x58 and the identifier at
0x5C–0x60 — which are overwritten from the structured field values. -/
theorem claim4_codecB_frame (it : ShopItem) (h108 : it.block.length = 108)
    (hid : it.id < 2 ^ 32) (hcat : it.category < 2 ^ 32) :
    ∃ out, rebuild_item it = some out ∧ out.length = 108 ∧
      (∀ i, 32 ≤ i → i ≠ 80 → ¬(84 ≤ i ∧ i < 88) → ¬(92 ≤ i ∧ i < 96) →
        out[i]? = it.block[i]?) ∧
      slice out 0 32 = nameBytesB it.name ++
        List.replicate (32 - (nameBytesB it.name).length) 0 ∧
      out[80]? = some (it.buyable % 256) ∧
      slice out 84 88 = natToLE 4 it.category ∧
      slice out 92 96 = natToLE 4 it.id :=
  rebuild_item_spec it h108 hid hcat

theorem claim4_witness :
    c4Item.block.length = 108 ∧ c4Item.id < 2 ^ 32 ∧ c4Item.category < 2 ^ 32 ∧
    (∃ out, rebuild_item c4Item = some out ∧ out.length = 108 ∧
      (∀ i, 32 ≤ i → i ≠ 80 → ¬(84 ≤ i ∧ i < 88) → ¬(92 ≤ i ∧ i < 96) →
        out[i]? = c4Item.block[i]?) ∧
      slice out 0 32 = nameBytesB c4Item.name ++
        List.replicate (32 - (nameBytesB c4Item.name).length) 0 ∧
      out[80]? = some (c4Item.buyable % 256) ∧
      slice out 84 88 = natToLE 4 c4Item.category ∧
      slice out 92 96 = natToLE 4 c4Item.id) :=
  ⟨by decide, by decide, by decide,
    claim4_codecB_frame c4Item (by decide) (by decide) (by decide)⟩

/-- Counterexample to claim C5 as stated: a 48-byte zero header plus two
108-byte blocks (the first carrying a stray byte after the name terminator)
does not round-trip byte-for-byte through decode then encode. -/
theorem claim5_codecB_raw_roundtrip_cex :
    c5BadInput.length = 48 + 108 + 108 ∧
    ((shopLoad c5BadInput).bind fun pr => shopExport pr.1 pr.2) ≠ some c5BadInput := by
  decide

/-- Claim C5 (amended): a 48-byte all-zero header plus two 108-byte blocks
round-trips byte-for-byte through decode then encode, provided each block's
32-byte name region is a null-padded ASCII name: at most 31 nonzero bytes
below 128 followed by zero padding. -/
theorem claim5_codecB_roundtrip_amended (bA bB : List Nat) (hA : bA.length = 108)
    (hB : bB.length = 108) (hltA : ∀ b ∈ bA, b < 256) (hltB : ∀ b ∈ bB, b < 256)
    (hnA : goodName bA) (hnB : goodName bB) :
    ∃ hdr items, shopLoad (List.replicate 48 0 ++ (bA ++ bB)) = some (hdr, items) ∧
      shopExport hdr items = some (List.replicate 48 0 ++ (bA ++ bB)) :=
  shop_two_block_roundtrip bA bB hA hB hltA hltB hnA hnB

theorem claim5_witness :
    goodName c5BlockA ∧ goodName c5BlockB ∧
    (∃ hdr items, shopLoad (List.replicate 48 0 ++ (c5BlockA ++ c5BlockB))
        = some (hdr, items) ∧
      shopExport hdr items = some (List.replicate 48 0 ++ (c5BlockA ++ c5BlockB))) :=
  ⟨⟨[65, 66], by decide, by decide, by decide⟩, ⟨[], by decide, by decide, by decide⟩,
    claim5_codecB_roundtrip_amended c5BlockA c5BlockB (by decide) (by decide) (by decide)
      (by decide) ⟨[65, 66], by decide, by decide, by decide⟩
      ⟨[], by decide, by decide, by decide⟩⟩

/-- Counterexample to claim C6 as stated: decoding the 4-byte zero header
plus one block with identifier 1101234560 yields part 0 and buyable 0, not
part 1 and buyable 1 (the digits of 1101234560 have `0` at index 2 and `4`
at index 6). -/
theorem claim6_scenario_cex :
    (loadItems c6BadInput).1.map ItemRecord.id = [1101234560] ∧
    (loadItems c6BadInput).1.map ItemRecord.bot = [1] ∧
    (loadItems c6BadInput).1.map ItemRecord.part = [0] ∧
    (loadItems c6BadInput).1.map ItemRecord.buyable = [0] := by
  decide

/-- Claim C6 (amended): with identifier 1111230560 — which has the properties
the scenario states: starts with 11, digit index 6 is 0 — decode yields
bot 1, part 1, buyable 1, and setting buyable to 0 then syncing changes only
digit index 6 of the identifier, to 1. -/
theorem claim6_scenario_amended :
    loadItems c6Input = ([c6Rec], false) ∧
    c6Rec.bot = 1 ∧ c6Rec.part = 1 ∧ c6Rec.buyable = 1 ∧
    (natDigits c6Rec.id)[6]? = some 0 ∧
    syncBuyableDigit { c6Rec with buyable := 0 }
      = { c6Rec with buyable := 0, id := 1111231560 } ∧
    natDigits 1111231560 = (natDigits c6Rec.id).set 6 1 := by
  decide

/-- Counterexample to claim C7 as stated: a 240-byte file (4-byte header and
one full 236-byte block) whose block identifier is 11 decodes to 0 records
with the error path taken, not floor((240-4)/236) = 1 records. -/
theorem claim7_count_cex :
    c7BadInput.length = 240 ∧ (240 - 4) / 236 = 1 ∧
    (loadItems c7BadInput).1.length = 0 ∧ (loadItems c7BadInput).2 = true := by
  decide

/-- Claim C7 (amended): for an input of length at least 4 on which no full
236-byte block's derived-field computation raises, decode skips the 4 header
bytes and yields exactly floor((length-4)/236) records in file order, a
trailing short block being silently discarded. -/
theorem claim7_count_amended (bs : List Nat) (h4 : 4 ≤ bs.length)
    (hp : ∀ i, i < (bs.length - 4) / 236 → (parseBlock (blockAt bs i)).isSome) :
    (loadItems bs).2 = false ∧ (loadItems bs).1.length = (bs.length - 4) / 236 ∧
    ∀ i, i < (bs.length - 4) / 236 → (loadItems bs).1[i]? = parseBlock (blockAt bs i) := by
  simp only [blockAt] at hp ⊢
  exact loadLoop_of_parses ((bs.length - 4) / 236) (bs.drop 4) hp

theorem claim7_witness :
    c7GoodInput.length = 4 + 236 * 3 + 100 ∧ 4 ≤ c7GoodInput.length ∧
    (∀ i, i < (c7GoodInput.length - 4) / 236 → (parseBlock (blockAt c7GoodInput i)).isSome) ∧
    ((loadItems c7GoodInput).2 = false ∧
      (loadItems c7GoodInput).1.length = (c7GoodInput.length - 4) / 236 ∧
      ∀ i, i < (c7GoodInput.length - 4) / 236 →
        (loadItems c7GoodInput).1[i]? = parseBlock (blockAt c7GoodInput i)) :=
  ⟨by decide, by decide, by decide,
    claim7_count_amended c7GoodInput (by decide) (by decide)⟩

/-- Counterexample to claim C8 as stated: Codec A performs no header-size
check — decoding the empty file returns an empty record list with no error
raised, instead of failing. -/
theorem claim8_short_input_cex :
    ([] : List Nat).length < 4 ∧ loadItems [] = ([], false) := by
  decide

/-- Claim C8 (amended): Codec B fails for every input shorter than its
48-byte header; Codec A has no such check and returns an empty record
sequence without error for every input shorter than 4 bytes. -/
theorem claim8_short_input_amended :
    (∀ bs : List Nat, bs.length < 48 → shopLoad bs = none) ∧
    (∀ bs : List Nat, bs.length < 4 → loadItems bs = ([], false)) := by
  constructor
  · intro bs h
    rw [shopLoad, if_pos h]
  · intro bs h
    have h0 : (bs.length - 4) / 236 = 0 := by omega
    rw [loadItems, h0]
    rfl

theorem claim8_witness :
    ([0] : List Nat).length < 48 ∧ ([0] : List Nat).length < 4 ∧
    shopLoad [0] = none ∧ loadItems [0] = ([], false) :=
  ⟨by decide, by decide, claim8_short_input_amended.1 [0] (by decide),
    claim8_short_input_amended.2 [0] (by decide)⟩

/-- Claim C9: `sync_buyable_digit` is idempotent — applying it twice with no
intervening mutation gives the same record as applying it once. -/
theorem claim9_sync_idempotent (r : ItemRecord) :
    syncBuyableDigit (syncBuyableDigit r) = syncBuyableDigit r := by
  by_cases h7 : (natDigits r.id).length < 7
  · rw [sync_noop r (Or.inl h7), sync_noop r (Or.inl h7)]
  by_cases hbot : r.bot = 1 ∨ r.bot = 2 ∨ r.bot = 3
  · have h7' : 7 ≤ (natDigits r.id).length := by omega
    have hdig := sync_id_digits r h7' hbot
    have hbranch := sync_branch r h7' hbot
    have hbot' : (syncBuyableDigit r).bot = r.bot := by rw [hbranch]
    have hbuy' : (syncBuyableDigit r).buyable = r.buyable := by rw [hbranch]
    have h7'' : 7 ≤ (natDigits (syncBuyableDigit r).id).length := by
      rw [hdig, List.length_set]
      exact h7'
    have hbranch2 := sync_branch (syncBuyableDigit r) h7'' (by rw [hbot']; exact hbot)
    rw [hbranch2]
    have hsame : ∀ (s : ItemRecord) (x : Nat), x = s.id → { s with id := x } = s := by
      intro s x hx
      subst hx
      rfl
    apply hsame
    rw [hdig, hbuy', List.set_set]
    have hid' : (syncBuyableDigit r).id
        = fromDigits ((natDigits r.id).set 6 (if r.buyable = 0 then 1 else 0)) := by
      rw [hbranch]
    rw [hid']
  · rw [sync_noop r (Or.inr hbot)]
    exact sync_noop r (Or.inr hbot)

/-- Claim C10: `add_item` on an empty record table raises (indexing the last
element of the empty list); on a non-empty table it appends a clone of the
last record with identifier incremented, name reset to `NewItem`, category 0
and buyable 1. -/
theorem claim10_addItem_empty :
    addItem ([] : List ShopItem) = none ∧
    ∀ (items : List ShopItem) (last : ShopItem), items.getLast? = some last →
      addItem items = some (items ++ [mkNewItem last]) := by
  constructor
  · rfl
  · intro items last h
    rw [addItem, h]

theorem claim10_witness :
    [c10Item].getLast? = some c10Item ∧
    addItem [c10Item] = some ([c10Item] ++ [mkNewItem c10Item]) :=
  ⟨by decide, claim10_addItem_empty.2 [c10Item] c10Item (by decide)⟩

end AppZinho
